import Mathlib

/-!
Verification of the kojo session-manager core (Go sources under src/),
against its natural-language specification.  Each Go function a claim
depends on is shallowly embedded as an executable Lean definition: bytes
are modelled as `Nat`, Go slices as `List`, Go `error` results as
`Except`/`Option`, and external collaborators (filesystem, tmux CLI,
PTYs, child processes) as explicit oracle parameters.
-/

namespace Kojo

/-! ## Ring buffer (src/unnamed/part_004, `RingBuffer`) -/

/-- `lastN n l` is the last `n` elements of `l` (all of `l` when `l` is
shorter): the chronological tail kept by a ring of capacity `n`. -/
def lastN (n : Nat) (l : List α) : List α :=
  l.drop (l.length - n)

/-- State of `RingBuffer`: backing buffer `buf` (length `size`), write
cursor `w`, and the `full` wrap flag.  Mirrors the Go struct fields. -/
structure RingBuffer where
  buf : List Nat
  size : Nat
  w : Nat
  full : Bool
deriving Repr, DecidableEq

/-- `NewRingBuffer(size)`: zeroed buffer, cursor 0, not full. -/
def NewRingBuffer (size : Nat) : RingBuffer :=
  { buf := List.replicate size 0, size := size, w := 0, full := false }

/-- One iteration of the `for _, b := range p` loop body of
`RingBuffer.Write`: store at `w`, advance, wrap and set `full` when the
cursor reaches `size`. -/
def RingBuffer.writeByte (r : RingBuffer) (b : Nat) : RingBuffer :=
  if r.w + 1 ≥ r.size then { r with buf := r.buf.set r.w b, w := 0, full := true }
  else { r with buf := r.buf.set r.w b, w := r.w + 1 }

/-- `RingBuffer.Write(p)`: the byte loop, folded over the input.  A total
function — `Write` never fails. -/
def RingBuffer.write (r : RingBuffer) (p : List Nat) : RingBuffer :=
  p.foldl RingBuffer.writeByte r

/-- `RingBuffer.Bytes()`: contents in chronological order — `buf[:w]`
when not yet full, else `buf[w:] ++ buf[:w]`. -/
def RingBuffer.bytes (r : RingBuffer) : List Nat :=
  if !r.full then r.buf.take r.w
  else r.buf.drop r.w ++ r.buf.take r.w

/-- A sequence of `Write` calls, in order. -/
def RingBuffer.writeAll (r : RingBuffer) (ws : List (List Nat)) : RingBuffer :=
  ws.foldl RingBuffer.write r

/-- Well-formedness of a ring state: buffer length matches `size` and the
cursor is in range.  Established by `NewRingBuffer` for positive size and
preserved by every write. -/
def RingBuffer.WF (r : RingBuffer) : Prop :=
  r.buf.length = r.size ∧ r.w < r.size

/-! ## Per-tool restart arguments (src/unnamed/part_008, `buildRestartArgs`) -/

/-- Body of the claude-branch loop of `buildRestartArgs`: state is the
accumulated args plus the `skipNext` flag; drops `--resume`/`-r` (and the
following value) and `--continue`/`-c`. -/
def claudeStep (st : List String × Bool) (a : String) : List String × Bool :=
  if st.2 then (st.1, false)
  else if a = "--resume" || a = "-r" then (st.1, true)
  else if a = "--continue" || a = "-c" then (st.1, false)
  else (st.1 ++ [a], false)

/-- Body of the gemini-branch loop of `buildRestartArgs`: like
`claudeStep` but only `--resume`/`-r` (and value) are dropped. -/
def geminiStep (st : List String × Bool) (a : String) : List String × Bool :=
  if st.2 then (st.1, false)
  else if a = "--resume" || a = "-r" then (st.1, true)
  else (st.1 ++ [a], false)

/-- The claude-branch stripping loop of `buildRestartArgs`. -/
def claudeStripFold (origArgs : List String) : List String :=
  (origArgs.foldl claudeStep ([], false)).1

/-- The gemini-branch stripping loop of `buildRestartArgs`. -/
def geminiStripFold (origArgs : List String) : List String :=
  (origArgs.foldl geminiStep ([], false)).1

/-- `buildRestartArgs(tool, origArgs, toolSessionID)` from the source. -/
def buildRestartArgs (tool : String) (origArgs : List String)
    (toolSessionID : String) : List String :=
  if tool = "claude" then
    let args := claudeStripFold origArgs
    if toolSessionID ≠ "" then args ++ ["--resume", toolSessionID]
    else args ++ ["--continue"]
  else if tool = "codex" then
    if toolSessionID ≠ "" then ["resume", toolSessionID]
    else ["resume", "--last"]
  else if tool = "gemini" then
    geminiStripFold origArgs ++ ["--resume", "latest"]
  else if tool = "tmux" then
    if toolSessionID ≠ "" then ["new-session", "-A", "-s", toolSessionID]
    else origArgs
  else origArgs

/-- Spec-side description of the claude stripping: every `--resume`/`-r`
together with the argument right after it, and every `--continue`/`-c`,
removed from the list. -/
def stripResumeContinue : List String → List String
  | [] => []
  | [a] =>
    if a = "--resume" || a = "-r" then []
    else if a = "--continue" || a = "-c" then []
    else [a]
  | a :: b :: rest =>
    if a = "--resume" || a = "-r" then stripResumeContinue rest
    else if a = "--continue" || a = "-c" then stripResumeContinue (b :: rest)
    else a :: stripResumeContinue (b :: rest)

/-- Spec-side description of the gemini stripping: every `--resume`/`-r`
together with the argument right after it removed. -/
def stripResume : List String → List String
  | [] => []
  | [a] =>
    if a = "--resume" || a = "-r" then []
    else [a]
  | a :: b :: rest =>
    if a = "--resume" || a = "-r" then stripResume rest
    else a :: stripResume (b :: rest)


/-! ## Session records and the session store
(src/internal/session/session.go, src/unnamed/part_011) -/

/-- `Status`: one of running, exited. -/
inductive Status where
  | running
  | exited
deriving Repr, DecidableEq

/-- The tool allowlists of the manager (src/unnamed/part_008):
`userTools` and `internalTools`. -/
def userToolsB (t : String) : Bool :=
  t = "claude" || t = "codex" || t = "gemini"

def internalToolsB (t : String) : Bool :=
  t = "tmux"

def isAllowedTool (t : String) : Bool :=
  userToolsB t || internalToolsB t

/-- A `Session` record.  Go pointer/handle fields are abstracted to the
facts the claims need: `hasPTY`/`hasRawPipe` model whether `PTY` and
`rawPipe` are non-nil, `doneClosed` models whether the `done` channel has
been closed, and the ghost counter `doneCloseCount` counts `close(done)`
operations on the current `done` channel (a second close would panic in
Go). -/
structure Session where
  id : String
  tool : String
  workDir : String
  args : List String
  status : Status
  exitCode : Option Int
  yoloMode : Bool
  internal : Bool
  toolSessionId : String
  parentId : String
  tmuxName : String
  lastOutput : Option (List Nat)
  lastCols : Nat
  lastRows : Nat
  createdAt : Option Int
  doneClosed : Bool
  doneCloseCount : Nat
  hasPTY : Bool
  hasRawPipe : Bool
  restarting : Bool
deriving Repr, DecidableEq

/-- `SessionInfo`, the persisted form.  `createdAt` holds the result of
the RFC-3339 parse of the stored timestamp (`none` when unparsable);
`lastOutput` is the decoded base64 (`none` when the field was empty). -/
structure SessionInfo where
  id : String
  tool : String
  workDir : String
  args : List String
  status : Status
  exitCode : Option Int
  yoloMode : Bool
  internal : Bool
  createdAt : Option Int
  toolSessionId : String
  parentId : String
  tmuxSessionName : String
  lastOutput : Option (List Nat)
  lastCols : Nat
  lastRows : Nat
deriving Repr, DecidableEq

/-- Outcome of `os.ReadFile` plus `json.Unmarshal` on the sessions file:
absent, read error, or content whose parse yields `some` list or fails. -/
inductive ReadFileResult where
  | notExist
  | readError
  | content (parsed : Option (List SessionInfo))
deriving Repr, DecidableEq

/-- `maxAge = 7 * 24 * time.Hour`, in seconds. -/
def maxAge : Int := 7 * 24 * 60 * 60

/-- `Store.Load` (src/unnamed/part_011): `(nil, nil)` when the file does
not exist; `(nil, err)` on read or parse errors; otherwise the parsed
entries whose `createdAt` parses and is after `now - maxAge`. -/
def storeLoad (file : ReadFileResult) (now : Int) :
    Except Unit (List SessionInfo) :=
  match file with
  | .notExist => .ok []
  | .readError => .error ()
  | .content none => .error ()
  | .content (some infos) =>
    .ok (infos.filter (fun info =>
      match info.createdAt with
      | none => false
      | some t => now - maxAge < t))

/-! ## Manager startup: load persisted sessions and orphan cleanup
(src/unnamed/part_008, `NewManager` / `loadPersistedSessions` /
`cleanupOrphanedTmuxSessions`) -/

/-- External tmux/pty world, as oracles: session existence, pane-death
query (`none` = query error), whether `pty.StartWithSize` on the attach
command succeeds, whether `tmuxStartPipePane` succeeds, the result of
`tmuxListKojoSessions` (`none` = list error; the Go helper already
filters to the `kojo_` prefix), and the base names of `*.pipe` FIFO
files present in the per-user FIFO directory. -/
structure TmuxEnv where
  hasSession : String → Bool
  paneDead : String → Option (Bool × Int)
  attachPtyOk : String → Bool
  pipePaneOk : String → Bool
  listKojo : Option (List String)
  staleFifos : List String

/-- One iteration of the `loadPersistedSessions` loop: rebuild the
record as exited by default; if its tmux session is alive and the pane
runs, reattach (status running, cleared exit data, fresh channels);
if the pane is dead record the exit code and kill the remnant; on a
state-query error kill defensively.  Every record not restored as
running has its `done` channel closed.  Also returns the tmux kills
issued. -/
def restoreSession (env : TmuxEnv) (info : SessionInfo) :
    Session × List String :=
  let base : Session :=
    { id := info.id, tool := info.tool, workDir := info.workDir,
      args := info.args, status := .exited, exitCode := info.exitCode,
      yoloMode := info.yoloMode,
      internal := info.internal || internalToolsB info.tool,
      toolSessionId := info.toolSessionId, parentId := info.parentId,
      tmuxName := info.tmuxSessionName, lastOutput := info.lastOutput,
      lastCols := info.lastCols, lastRows := info.lastRows,
      createdAt := info.createdAt, doneClosed := false,
      doneCloseCount := 0, hasPTY := false, hasRawPipe := false,
      restarting := false }
  if info.tmuxSessionName ≠ "" && env.hasSession info.tmuxSessionName then
    match env.paneDead info.tmuxSessionName with
    | some (false, _) =>
      if env.attachPtyOk info.tmuxSessionName then
        ({ base with
            status := .running, exitCode := none, lastOutput := none,
            hasPTY := true,
            hasRawPipe := env.pipePaneOk info.tmuxSessionName }, [])
      else
        ({ base with doneClosed := true, doneCloseCount := 1 },
          [info.tmuxSessionName])
    | some (true, code) =>
      ({ base with
          exitCode := some code, doneClosed := true,
          doneCloseCount := 1 }, [info.tmuxSessionName])
    | none =>
      ({ base with doneClosed := true, doneCloseCount := 1 },
        [info.tmuxSessionName])
  else
    ({ base with doneClosed := true, doneCloseCount := 1 }, [])

/-- Result of `loadPersistedSessions`: the manager map contents, whether
the persisted state loaded successfully (the Go function returns this
Bool), and the tmux kills issued while restoring. -/
structure LoadResult where
  sessions : List Session
  loadOK : Bool
  kills : List String
deriving Repr, DecidableEq

def loadPersistedSessions (env : TmuxEnv) (file : ReadFileResult)
    (now : Int) : LoadResult :=
  match storeLoad file now with
  | .error _ => { sessions := [], loadOK := false, kills := [] }
  | .ok infos =>
    { sessions := infos.map (fun i => (restoreSession env i).1),
      loadOK := true,
      kills := (infos.map (fun i => (restoreSession env i).2)).flatten }

/-- The "known and running" set of `cleanupOrphanedTmuxSessions`:
tmux session names of records that are running and tmux-backed. -/
def knownRunning (sessions : List Session) : List String :=
  (sessions.filter (fun s => s.tmuxName ≠ "" && s.status = Status.running)).map
    (fun s => s.tmuxName)

/-- Effects of `cleanupOrphanedTmuxSessions`: tmux kills of listed
`kojo_` sessions not in the known-running set, and removals of stale
`.pipe` FIFOs not in the known-running set.  When listing the tmux
sessions fails the function returns early and does nothing. -/
structure CleanupResult where
  kills : List String
  fifoRemovals : List String
deriving Repr, DecidableEq

def cleanupOrphaned (env : TmuxEnv) (sessions : List Session) :
    CleanupResult :=
  match env.listKojo with
  | none => { kills := [], fifoRemovals := [] }
  | some names =>
    { kills := names.filter (fun n => ¬ n ∈ knownRunning sessions),
      fifoRemovals :=
        env.staleFifos.filter (fun n => ¬ n ∈ knownRunning sessions) }

/-- Result of `NewManager`: the loaded session map and, if orphan
cleanup ran (`loadOK` only), its effects. -/
structure ManagerInit where
  sessions : List Session
  loadOK : Bool
  loadKills : List String
  cleanup : Option CleanupResult

/-- `NewManager` (src/unnamed/part_008): load persisted sessions, then
run orphan cleanup if and only if the load succeeded. -/
def newManager (env : TmuxEnv) (file : ReadFileResult) (now : Int) :
    ManagerInit :=
  let lr := loadPersistedSessions env file now
  { sessions := lr.sessions, loadOK := lr.loadOK, loadKills := lr.kills,
    cleanup :=
      if lr.loadOK then some (cleanupOrphaned env lr.sessions) else none }

/-! ## Manager.Create and Manager.Restart (src/unnamed/part_008) -/

/-- The claude `--session-id` scan in `Create`: returns the value of an
existing `--session-id` argument (separate or `=`-joined), if any. -/
def findSessionIdArg : List String → Option String
  | [] => none
  | a :: rest =>
    if a = "--session-id" then some (rest.headD "")
    else if a.startsWith "--session-id=" then some (a.drop 13)
    else findSessionIdArg rest

/-- External environment of `Create`/`Restart`: whether
`exec.LookPath` finds the tool, whether the work dir stats as a
directory, the generated session id and UUID, and whether the launch
(tmux new-session + attach PTY, or direct PTY) and the pipe-pane setup
succeed. -/
structure CreateEnv where
  toolPathOk : Bool
  workDirOk : Bool
  newId : String
  newUUID : String
  startOk : Bool
  pipeOk : Bool

/-- The session record `Create` builds and inserts.  `Args` is the
original `args` argument, not the launched `runArgs`. -/
def mkCreatedSession (id tool workDir : String) (args : List String)
    (yolo : Bool) (parentId tsid : String) (now : Int) (hasPipe : Bool) :
    Session :=
  { id := id, tool := tool, workDir := workDir, args := args,
    status := .running, exitCode := none, yoloMode := yolo,
    internal := internalToolsB tool, toolSessionId := tsid,
    parentId := parentId,
    tmuxName := if userToolsB tool then "kojo_" ++ id else "",
    lastOutput := none, lastCols := 0, lastRows := 0,
    createdAt := some now, doneClosed := false, doneCloseCount := 0,
    hasPTY := true, hasRawPipe := hasPipe, restarting := false }

/-- Outcome of `Manager.Create`: an error, the concurrent-duplicate
branch returning an existing record (ours discarded), or a newly
inserted record together with the `runArgs` the process was launched
with. -/
inductive CreateOutcome where
  | err
  | dup (existing : Session)
  | inserted (s : Session) (runArgs : List String)
deriving Repr, DecidableEq

/-- `Manager.Create(tool, workDir, args, yoloMode, parentID)`: allowlist
and path/dir validation; claude gets a pre-assigned tool session id and
`--session-id` injected into the run args when absent; the internal
tmux tool gets fixed run args; launch; then under the manager lock the
duplicate-child check may discard the new record and return an existing
running `(parentID, tool)` child. -/
def managerCreate (env : CreateEnv) (existing : List Session)
    (tool workDir : String) (args : List String) (yolo : Bool)
    (parentId : String) (now : Int) : CreateOutcome :=
  if ¬ isAllowedTool tool then .err
  else if ¬ env.toolPathOk then .err
  else if ¬ env.workDirOk then .err
  else
    let id := env.newId
    let tr : String × List String :=
      if tool = "claude" then
        match findSessionIdArg args with
        | some v => (v, args)
        | none => (env.newUUID, args ++ ["--session-id", env.newUUID])
      else if tool = "tmux" then
        ("kojo_" ++ id,
          ["new-session", "-A", "-s", "kojo_" ++ id, "-c", workDir])
      else ("", args)
    if ¬ env.startOk then .err
    else
      let s := mkCreatedSession id tool workDir args yolo parentId tr.1 now
        (userToolsB tool && env.pipeOk)
      if parentId ≠ "" then
        match existing.find? (fun e =>
            e.parentId = parentId && e.tool = tool
              && e.status = Status.running) with
        | some e => .dup e
        | none => .inserted s tr.2
      else .inserted s tr.2

/-- The record update `Restart` performs under the record lock after a
successful relaunch: fresh channels, running status, cleared exit data,
original `Args` kept (`s.Args = args`, not `restartArgs`). -/
def restartUpdate (s : Session) (tmuxName2 : String) (hasPipe : Bool) :
    Session :=
  { s with
    tmuxName := tmuxName2, status := .running, exitCode := none,
    lastOutput := none, restarting := false, doneClosed := false,
    doneCloseCount := 0, hasPTY := true, hasRawPipe := hasPipe }

/-- `Manager.Restart(id)`: reject while running or already restarting;
validate the tool; relaunch with `buildRestartArgs`; install the new
state.  Returns the updated record and the args the relaunch used. -/
def managerRestart (env : CreateEnv) (s : Session) :
    Option (Session × List String) :=
  if s.status = Status.running || s.restarting then none
  else if ¬ isAllowedTool s.tool then none
  else if ¬ env.toolPathOk then none
  else
    let restartArgs := buildRestartArgs s.tool s.args s.toolSessionId
    if ¬ env.startOk then none
    else
      let name2 :=
        if userToolsB s.tool then
          (if s.tmuxName = "" then "kojo_" ++ s.id else s.tmuxName)
        else s.tmuxName
      some (restartUpdate s name2 (userToolsB s.tool && env.pipeOk),
        restartArgs)

/-! ## completeExit, StopAll and the session-lifecycle transition system
(src/unnamed/part_008) -/

/-- `Manager.completeExit(s, exitCode)`: capture the last 8192 bytes of
scrollback as `lastOutput`, set status exited and the exit code, close
`done`. -/
def completeExitS (s : Session) (code : Int) (scroll : List Nat) :
    Session :=
  { s with
    status := .exited, lastOutput := some (lastN 8192 scroll),
    exitCode := some code, doneClosed := true,
    doneCloseCount := s.doneCloseCount + 1 }

/-- The per-session detach `StopAll` performs on a running tmux-backed
record: stop pipe-pane, kill the attach process, close the attach PTY —
status and tmux session untouched. -/
def detachS (s : Session) : Session :=
  { s with hasPTY := false, hasRawPipe := false }

/-- Reachable session records: built by `Create`, reconstructed by the
startup load, or obtained from a reachable record by `completeExit`
(invoked by the per-epoch wait loop, once, while the record is
running), `Restart`, or the `StopAll` detach. -/
inductive Reachable : Session → Prop where
  | create (env : CreateEnv) (existing : List Session)
      (tool workDir : String) (args : List String) (yolo : Bool)
      (parentId : String) (now : Int) (s : Session) (ra : List String) :
      managerCreate env existing tool workDir args yolo parentId now
        = .inserted s ra → Reachable s
  | load (env : TmuxEnv) (info : SessionInfo) :
      Reachable (restoreSession env info).1
  | exitStep (s : Session) (code : Int) (scroll : List Nat) :
      Reachable s → s.status = .running →
      Reachable (completeExitS s code scroll)
  | restartStep (env : CreateEnv) (s s2 : Session) (ra : List String) :
      Reachable s → managerRestart env s = some (s2, ra) → Reachable s2
  | detachStep (s : Session) : Reachable s → Reachable (detachS s)

/-! ## Stop / StopAll action traces (src/unnamed/part_008) -/

/-- External actions issued by `Stop`/`StopAll`, in order. -/
inductive Action where
  | killSession (name : String)
  | sigterm (id : String)
  | stopPipePane (id : String)
  | killAttach (id : String)
  | closePTY (id : String)
deriving Repr, DecidableEq

/-- Action trace of `Manager.Stop(id)` on record `s`: kill the backing
tmux session if any; for the internal tmux tool kill the session named
by its tool-session id; recursively stop running tmux-tool children;
SIGTERM the attach/direct process.  `fuel` bounds the child recursion
(the Go recursion is bounded by the acyclic parent relation). -/
def stopActions (sessions : List Session) : Nat → Session → List Action
  | 0, _ => []
  | fuel + 1, s =>
    if s.status ≠ Status.running || s.restarting then []
    else
      (if s.tmuxName ≠ "" then [Action.killSession s.tmuxName] else [])
      ++ (if s.tool = "tmux" && s.toolSessionId ≠ "" then
            [Action.killSession s.toolSessionId] else [])
      ++ ((sessions.filter (fun c =>
            c.parentId = s.id && c.tool = "tmux"
              && c.status = Status.running)).map
          (stopActions sessions fuel)).flatten
      ++ [Action.sigterm s.id]

/-- Oracles for `StopAll`: whether each directly-hosted process exits
within the 10 s wait after `Stop`, its exit code, and the scrollback
its `completeExit` captures. -/
structure StopAllEnv where
  exitsInTime : String → Bool
  exitCodeOf : String → Int
  scrollOf : String → List Nat

/-- Per-session state update of `StopAll` (including the effect of the
per-session waitLoop `completeExit` that the `<-s.done` wait observes):
running direct-PTY sessions exit (when the process dies within the
wait), running tmux-backed sessions are detached, everything else is
untouched. -/
def stopAllUpdate (env : StopAllEnv) (s : Session) : Session :=
  if s.status = Status.running && s.tmuxName = "" then
    (if env.exitsInTime s.id then
      completeExitS s (env.exitCodeOf s.id) (env.scrollOf s.id) else s)
  else if s.status = Status.running && s.tmuxName ≠ "" then detachS s
  else s

/-- `Manager.StopAll`: set `shuttingDown`; `Stop` each running
direct-PTY session and await its `done`; detach each running
tmux-backed session (stop pipe-pane, kill attach, close PTY) without
killing its tmux session. -/
def stopAllS (mgr : List Session) (env : StopAllEnv) :
    List Session × List Action :=
  let nonTmux := mgr.filter (fun s =>
    s.status = Status.running && s.tmuxName = "")
  let tmuxBacked := mgr.filter (fun s =>
    s.status = Status.running && s.tmuxName ≠ "")
  let stopTrace := (nonTmux.map (stopActions mgr (mgr.length + 1))).flatten
  let detachTrace := (tmuxBacked.map (fun s =>
    [Action.stopPipePane s.id, Action.killAttach s.id,
      Action.closePTY s.id])).flatten
  (mgr.map (stopAllUpdate env), stopTrace ++ detachTrace)

/-- Effect of an action trace on the tmux server session list:
`killSession` removes the named session, nothing else changes it. -/
def applyAction (world : List String) : Action → List String
  | .killSession n => world.filter (fun m => m ≠ n)
  | _ => world

def applyTrace (world : List String) (tr : List Action) : List String :=
  tr.foldl applyAction world

/-- `strings.HasPrefix`, evaluated over the character lists (the
kernel-reducible equivalent of `String.startsWith`). -/
def strHasPrefix (s p : String) : Bool :=
  p.data.isPrefixOf s.data

/-- `tmuxListKojoSessions` over an explicit server session list. -/
def tmuxListKojoS (world : List String) : List String :=
  world.filter (fun n => strHasPrefix n "kojo_")


/-! ## Prompt detector: control-sequence stripping and yolo matching
(src/internal/session/session.go, `ansiRe` / `multiSpaceRe` /
`yoloPattern` / `CheckYolo`).  Go `regexp` calls are modelled by
byte-level scanners with the same match semantics (ASCII bytes as
`Nat`). -/

/-- CSI parameter bytes `[0-?]` = 0x30–0x3F. -/
def isCsiParam (b : Nat) : Bool :=
  0x30 ≤ b && b ≤ 0x3F

/-- CSI intermediate bytes (space through slash) = 0x20–0x2F. -/
def isCsiInter (b : Nat) : Bool :=
  0x20 ≤ b && b ≤ 0x2F

/-- CSI final bytes `[@-~]` = 0x40–0x7E. -/
def isCsiFinal (b : Nat) : Bool :=
  0x40 ≤ b && b ≤ 0x7E

/-- Charset-designator final bytes `[0-9A-B]`. -/
def isDesigByte (b : Nat) : Bool :=
  (0x30 ≤ b && b ≤ 0x39) || b = 0x41 || b = 0x42

/-- Match the tail of a CSI sequence after `ESC [` per the first
`ansiRe` branch (parameter bytes, then intermediate bytes, then one
final byte): greedy runs of parameter then
intermediate bytes, then one final byte (the classes are disjoint, so
the greedy scan matches the regex's backtracking search).  Returns the
suffix after the match. -/
def matchCsi (l : List Nat) : Option (List Nat) :=
  match (l.dropWhile isCsiParam).dropWhile isCsiInter with
  | [] => none
  | b :: rest => if isCsiFinal b then some rest else none

/-- Match the tail of an OSC sequence after `ESC ]` per the branch
`\x1b\].*?(?:\x07|\x1b\\)` of `ansiRe`: lazily scan non-newline bytes
up to the first BEL or `ESC \` (Go `.` does not match a newline). -/
def matchOsc : List Nat → Option (List Nat)
  | [] => none
  | b :: rest =>
    if b = 7 then some rest
    else if b = 27 then
      match rest with
      | [] => none
      | r2 :: rest2 => if r2 = 92 then some rest2 else matchOsc rest
    else if b = 10 then none
    else matchOsc rest

/-- The `ansiRe.ReplaceAll(_, " ")` scan with explicit fuel (one unit
per consumed leading byte, so `l.length` fuel always suffices): find
successive leftmost matches — every alternative starts with ESC, and at
an ESC the second byte selects the branch — and replace each with a
single space; all other bytes are copied. -/
def stripAnsiGo : Nat → List Nat → List Nat
  | 0, l => l
  | fuel + 1, l =>
    match l with
    | [] => []
    | b :: rest =>
      if b = 27 then
        match rest with
        | [] => 27 :: stripAnsiGo fuel rest
        | r1 :: rest2 =>
          if r1 = 91 then
            match matchCsi rest2 with
            | some rem => 32 :: stripAnsiGo fuel rem
            | none => 27 :: stripAnsiGo fuel rest
          else if r1 = 93 then
            match matchOsc rest2 with
            | some rem => 32 :: stripAnsiGo fuel rem
            | none => 27 :: stripAnsiGo fuel rest
          else if r1 = 40 || r1 = 41 then
            match rest2 with
            | [] => 27 :: stripAnsiGo fuel rest
            | b2 :: rest3 =>
              if isDesigByte b2 then 32 :: stripAnsiGo fuel rest3
              else 27 :: stripAnsiGo fuel rest
          else 27 :: stripAnsiGo fuel rest
      else b :: stripAnsiGo fuel rest

/-- `ansiRe.ReplaceAll(l, " ")`. -/
def stripAnsi (l : List Nat) : List Nat :=
  stripAnsiGo l.length l

/-- `bytes.ReplaceAll(l, "\r\n", "\n")`: left-to-right, non-overlapping. -/
def replCRLF : List Nat → List Nat
  | 13 :: 10 :: rest => 10 :: replCRLF rest
  | b :: rest => b :: replCRLF rest
  | [] => []

/-- `bytes.ReplaceAll(l, "\r", "\n")`. -/
def crToLf (l : List Nat) : List Nat :=
  l.map (fun b => if b = 13 then 10 else b)

/-- Bytes of the class `[ \t]` of `multiSpaceRe`. -/
def isSpTab (b : Nat) : Bool :=
  b = 32 || b = 9

/-- Scanner state for `multiSpaceRe.ReplaceAll(l, " ")`: outside a
space run, after exactly one space/tab byte `b`, or inside a run of two
or more. -/
inductive SpState where
  | clean
  | one (b : Nat)
  | many
deriving Repr, DecidableEq

/-- `multiSpaceRe.ReplaceAll(l, " ")` (`[ \t]{2,}` → one space):
maximal space/tab runs of length at least two collapse to a single
space; single space/tab bytes are kept verbatim. -/
def collapseAux : SpState → List Nat → List Nat
  | .clean, [] => []
  | .one b, [] => [b]
  | .many, [] => [32]
  | .clean, a :: rest =>
    if isSpTab a then collapseAux (.one a) rest
    else a :: collapseAux .clean rest
  | .one b, a :: rest =>
    if isSpTab a then collapseAux .many rest
    else b :: a :: collapseAux .clean rest
  | .many, a :: rest =>
    if isSpTab a then collapseAux .many rest
    else 32 :: a :: collapseAux .clean rest

def collapseSpaces (l : List Nat) : List Nat :=
  collapseAux .clean l

/-- The cleaning pipeline of `CheckYolo`: strip control sequences,
normalize CR/CRLF to LF, collapse space runs. -/
def cleanse (l : List Nat) : List Nat :=
  collapseSpaces (crToLf (replCRLF (stripAnsi l)))

/-- ASCII lower-casing, for the `(?i)` flag. -/
def toLowerByte (b : Nat) : Nat :=
  if 65 ≤ b && b ≤ 90 then b + 32 else b

/-- Go `regexp`'s `\s` class: `[\t\n\f\r ]`. -/
def isGoSpace (b : Nat) : Bool :=
  b = 9 || b = 10 || b = 12 || b = 13 || b = 32

/-- Case-insensitive literal match of `pat` (given lower-cased) at the
head of `l`. -/
def matchesCI (pat : List Nat) (l : List Nat) : Bool :=
  pat.length ≤ l.length && (l.take pat.length).map toLowerByte = pat

/-- Lower-cased byte literals of `yoloPattern` pieces:
`"do you "`, `"1."`, `"yes"`. -/
def doYouPat : List Nat := [100, 111, 32, 121, 111, 117, 32]

def oneDotPat : List Nat := [49, 46]

def yesPat : List Nat := [121, 101, 115]

/-- `1\.\s*Yes` matched at the head of `l`. -/
def oneYesAt (l : List Nat) : Bool :=
  matchesCI oneDotPat l && matchesCI yesPat ((l.drop 2).dropWhile isGoSpace)

/-- `[\s\S]{0,200}?1\.\s*Yes`: some gap of at most 200 bytes reaches
`1. Yes`. -/
def gapOneYes (l : List Nat) : Bool :=
  (List.range 201).any fun g => oneYesAt (l.drop g)

/-- `[^\n]*\?` then the gap and `1. Yes`: some split of `l` whose first
part has no newline, followed by a literal `?`. -/
def questionTail (l : List Nat) : Bool :=
  (List.range (l.length + 1)).any fun k =>
    ((l.take k).all fun b => b ≠ 10) && (l.drop k).head? = some 63
      && gapOneYes (l.drop (k + 1))

/-- Existence of a match of
`(?i)Do you \S[^\n]*\?[\s\S]{0,200}?1\.\s*Yes` in `l`
(`yoloPattern.FindIndex(l) != nil`; existence does not depend on the
leftmost-lazy choices). -/
def yoloFound (l : List Nat) : Bool :=
  (List.range (l.length + 1)).any fun i =>
    matchesCI doYouPat (l.drop i)
      && (match (l.drop i).drop 7 with
          | [] => false
          | b :: rest => !isGoSpace b && questionTail rest)

/-- `yoloTailSize = 4096`. -/
def yoloTailSize : Nat := 4096

/-- The per-session prompt-detector state `CheckYolo` uses: the
`YoloMode` flag and the rolling `yoloTail`. -/
structure YoloState where
  yoloMode : Bool
  yoloTail : List Nat
deriving Repr, DecidableEq

/-- `Session.CheckYolo(data)`: nil immediately unless yolo mode is on;
append `data` to the tail, truncate to the last `yoloTailSize` bytes,
clean, and search for the approval pattern.  On a match return a
non-nil approval (its `Matched` substring payload is not modelled, only
presence) and clear the tail; otherwise keep the truncated tail.  The
cleaned tail is always returned as the debug string. -/
def checkYolo (st : YoloState) (data : List Nat) :
    Option Unit × List Nat × YoloState :=
  if !st.yoloMode then (none, [], st)
  else
    let tail := lastN yoloTailSize (st.yoloTail ++ data)
    let clean := cleanse tail
    if yoloFound clean then (some (), clean, { st with yoloTail := [] })
    else (none, clean, { st with yoloTail := tail })

/-- The raw bytes of scenario S1's basic prompt, as the readLoop would
feed them to `CheckYolo`. -/
def yoloPromptW : List Nat :=
  "Do you want to proceed? 1. Yes".data.map Char.toNat

/-- Unrelated output bytes. -/
def unrelatedW : List Nat :=
  "some follow-up output".data.map Char.toNat

/-! ## Subscribe / broadcast interleavings
(src/internal/session/session.go `Subscribe`/`broadcast`,
src/unnamed/part_008 `readLoop`) -/

/-- Atomic critical sections touching one subscriber and the
scrollback: the readLoop's `scrollback.Write(data)` (ring mutex), its
`broadcast(data)` (subscriber mutex, non-blocking send), and
`Subscribe` (subscriber mutex: register the channel and snapshot the
scrollback in one section). -/
inductive Ev where
  | write (c : List Nat)
  | bcast (c : List Nat)
  | subscribe
deriving Repr, DecidableEq

/-- State observed by a single subscriber: the scrollback contents, the
registration flag, the snapshot `Subscribe` returned, and the chunks
received on the channel (the channel is assumed not full, so no
slow-consumer drop occurs). -/
structure ObsState where
  scrollback : List Nat
  subscribed : Bool
  snapshot : Option (List Nat)
  received : List (List Nat)
deriving Repr, DecidableEq

def obsStep (st : ObsState) : Ev → ObsState
  | .write c => { st with scrollback := st.scrollback ++ c }
  | .bcast c =>
    if st.subscribed then { st with received := st.received ++ [c] } else st
  | .subscribe =>
    { st with subscribed := true, snapshot := some st.scrollback }

def runEvents (evs : List Ev) : ObsState :=
  evs.foldl obsStep
    { scrollback := [], subscribed := false, snapshot := none,
      received := [] }

/-- The readLoop's program order for chunks `cs`: for each chunk, the
scrollback write strictly before its broadcast, in source order. -/
def readLoopEvents (cs : List (List Nat)) : List Ev :=
  (cs.map (fun c => [Ev.write c, Ev.bcast c])).flatten

/-- Everything the subscriber observes, in order: the snapshot returned
by `Subscribe`, then the chunks received on its channel. -/
def observed (st : ObsState) : List Nat :=
  st.snapshot.getD [] ++ st.received.flatten

/-- `Interleaves l r m`: `m` is an interleaving of `l` and `r`
(both subsequences, in order, covering `m`).  A schedule of the
concurrent execution is any interleaving of the readLoop's events with
the subscriber's `Subscribe`. -/
inductive Interleaves : List Ev → List Ev → List Ev → Prop where
  | nil : Interleaves [] [] []
  | left (e : Ev) (l r m : List Ev) :
      Interleaves l r m → Interleaves (e :: l) r (e :: m)
  | right (e : Ev) (l r m : List Ev) :
      Interleaves l r m → Interleaves l (e :: r) (e :: m)

/-! ## Concrete fixtures used by witnesses and counterexamples -/

/-- A tmux world with no live sessions, one listed `kojo_` session and
one stale FIFO. -/
def tmuxEnvW : TmuxEnv :=
  { hasSession := fun _ => false, paneDead := fun _ => none,
    attachPtyOk := fun _ => false, pipePaneOk := fun _ => false,
    listKojo := some ["kojo_a"], staleFifos := ["kojo_b"] }

/-- A tmux world where every session exists and every pane is dead with
exit code 2. -/
def tmuxEnvDeadW : TmuxEnv :=
  { hasSession := fun _ => true, paneDead := fun _ => some (true, 2),
    attachPtyOk := fun _ => false, pipePaneOk := fun _ => false,
    listKojo := some [], staleFifos := [] }

/-- A persisted record saved while running (no exit code captured), not
tmux-backed — the state left behind by a host crash. -/
def infoCrashW : SessionInfo :=
  { id := "s_c", tool := "claude", workDir := "/w", args := [],
    status := .running, exitCode := none, yoloMode := false,
    internal := false, createdAt := some 0, toolSessionId := "",
    parentId := "", tmuxSessionName := "", lastOutput := none,
    lastCols := 0, lastRows := 0 }

/-- A persisted tmux-backed record whose pane is found dead on load. -/
def infoDeadW : SessionInfo :=
  { id := "s_d", tool := "claude", workDir := "/w", args := [],
    status := .running, exitCode := none, yoloMode := false,
    internal := false, createdAt := some 0, toolSessionId := "",
    parentId := "", tmuxSessionName := "kojo_s_d", lastOutput := none,
    lastCols := 0, lastRows := 0 }

/-- A fully-working create environment. -/
def createEnvW : CreateEnv :=
  { toolPathOk := true, workDirOk := true, newId := "s_1",
    newUUID := "U", startOk := true, pipeOk := true }

/-- An existing running child session of parent "p" with args `["x"]`. -/
def sessionDupW : Session :=
  { id := "s_0", tool := "claude", workDir := "/w", args := ["x"],
    status := .running, exitCode := none, yoloMode := false,
    internal := false, toolSessionId := "V", parentId := "p",
    tmuxName := "kojo_s_0", lastOutput := none, lastCols := 0,
    lastRows := 0, createdAt := some 0, doneClosed := false,
    doneCloseCount := 0, hasPTY := true, hasRawPipe := true,
    restarting := false }

/-- A running internal (direct-PTY) tmux-tool session. -/
def sessionDirectW : Session :=
  { id := "d1", tool := "tmux", workDir := "/w", args := [],
    status := .running, exitCode := none, yoloMode := false,
    internal := true, toolSessionId := "kojo_d1", parentId := "",
    tmuxName := "", lastOutput := none, lastCols := 0, lastRows := 0,
    createdAt := some 0, doneClosed := false, doneCloseCount := 0,
    hasPTY := true, hasRawPipe := false, restarting := false }

/-- A running tmux-backed user-tool session. -/
def sessionMuxW : Session :=
  { id := "m1", tool := "claude", workDir := "/w", args := [],
    status := .running, exitCode := none, yoloMode := false,
    internal := false, toolSessionId := "U1", parentId := "",
    tmuxName := "kojo_m1", lastOutput := none, lastCols := 0,
    lastRows := 0, createdAt := some 0, doneClosed := false,
    doneCloseCount := 0, hasPTY := true, hasRawPipe := true,
    restarting := false }

/-- StopAll oracles: every direct process exits in time with code 0 and
empty final scrollback. -/
def stopAllEnvW : StopAllEnv :=
  { exitsInTime := fun _ => true, exitCodeOf := fun _ => 0,
    scrollOf := fun _ => [] }

end Kojo

namespace Kojo

/-! ## Lemmas: `lastN` -/

theorem lastN_length_le (n : Nat) (l : List α) : (lastN n l).length ≤ n := by
  simp only [lastN, List.length_drop]
  omega

theorem lastN_of_length_le (n : Nat) (l : List α) (h : l.length ≤ n) :
    lastN n l = l := by
  simp [lastN, Nat.sub_eq_zero_of_le h]

theorem lastN_append_drop (n : Nat) (l m : List α) :
    lastN n (lastN n l ++ m) = lastN n (l ++ m) := by
  rcases Nat.le_total l.length n with h | h
  · rw [lastN_of_length_le n l h]
  · have hdl : (List.drop (l.length - n) l).length = n := by
      simp only [List.length_drop]
      omega
    unfold lastN
    simp only [List.length_append, hdl]
    rw [List.drop_append_eq_append_drop, List.drop_append_eq_append_drop,
      List.drop_drop, hdl]
    have e1 : l.length - n + (n + m.length - n) = l.length + m.length - n := by
      omega
    have e2 : n + m.length - n - n = l.length + m.length - n - l.length := by
      omega
    rw [e1, e2]

/-! ## Lemmas: ring buffer -/

theorem RingBuffer.wf_new (size : Nat) (h : 0 < size) :
    (NewRingBuffer size).WF := by
  exact ⟨by simp [NewRingBuffer], by simpa [NewRingBuffer] using h⟩

theorem RingBuffer.size_writeByte (r : RingBuffer) (b : Nat) :
    (r.writeByte b).size = r.size := by
  unfold RingBuffer.writeByte
  split <;> rfl

theorem RingBuffer.wf_writeByte {r : RingBuffer} (h : r.WF) (b : Nat) :
    (r.writeByte b).WF := by
  obtain ⟨hlen, hw⟩ := h
  unfold RingBuffer.WF RingBuffer.writeByte
  split
  · exact ⟨by simpa using hlen, by simpa using by omega⟩
  · next hlt =>
    exact ⟨by simpa using hlen, by simp only; omega⟩

theorem RingBuffer.bytes_length_le {r : RingBuffer} (h : r.WF) :
    r.bytes.length ≤ r.size := by
  obtain ⟨hlen, hw⟩ := h
  unfold RingBuffer.bytes
  split
  · simp only [List.length_take]
    omega
  · simp only [List.length_append, List.length_drop, List.length_take]
    omega

/-- The abstraction step: one `writeByte` turns the chronological
contents into the last `size` bytes of the extended stream. -/
theorem RingBuffer.bytes_writeByte {r : RingBuffer} (h : r.WF) (b : Nat) :
    (r.writeByte b).bytes = lastN r.size (r.bytes ++ [b]) := by
  obtain ⟨hlen, hw⟩ := h
  have hwlt : r.w < r.buf.length := by omega
  have hsplit : r.buf.set r.w b = r.buf.take r.w ++ b :: r.buf.drop (r.w + 1) :=
    List.set_eq_take_cons_drop b hwlt
  have htwlen : (r.buf.take r.w).length = r.w := by
    simp only [List.length_take]
    omega
  have htake : (r.buf.set r.w b).take (r.w + 1) = r.buf.take r.w ++ [b] := by
    rw [hsplit, List.take_append_eq_append_take, htwlen]
    have h1 : (r.buf.take r.w).take (r.w + 1) = r.buf.take r.w :=
      List.take_of_length_le (by omega)
    have h2 : r.w + 1 - r.w = 1 := by omega
    rw [h1, h2]
    rfl
  have hdrop : (r.buf.set r.w b).drop (r.w + 1) = r.buf.drop (r.w + 1) := by
    rw [hsplit, List.drop_append_eq_append_drop, htwlen]
    have h1 : (r.buf.take r.w).drop (r.w + 1) = [] :=
      List.drop_eq_nil_iff.mpr (by simp only [List.length_take]; omega)
    have h2 : r.w + 1 - r.w = 1 := by omega
    rw [h1, h2]
    rfl
  by_cases hfull : r.full = true
  · -- full ring: contents are buf[w:] ++ buf[:w], of length size
    have hbytes : r.bytes = r.buf.drop r.w ++ r.buf.take r.w := by
      simp [RingBuffer.bytes, hfull]
    have hdw : (r.buf.drop r.w).length = r.size - r.w := by
      simp only [List.length_drop]
      omega
    have hrhs : lastN r.size (r.bytes ++ [b])
        = r.buf.drop (r.w + 1) ++ (r.buf.take r.w ++ [b]) := by
      rw [hbytes]
      have hlq : ((r.buf.drop r.w ++ r.buf.take r.w) ++ [b]).length = r.size + 1 := by
        simp only [List.length_append, List.length_drop, List.length_take,
          List.length_cons, List.length_nil]
        omega
      unfold lastN
      rw [hlq]
      have h1 : r.size + 1 - r.size = 1 := by omega
      rw [h1, List.append_assoc, List.drop_append_of_le_length (by omega),
        List.drop_drop]
    by_cases hge : r.w + 1 ≥ r.size
    · have hw1 : r.w + 1 = r.size := by omega
      have hnew : (r.writeByte b).bytes = r.buf.set r.w b := by
        simp [RingBuffer.writeByte, RingBuffer.bytes, hge]
      have hdnil : r.buf.drop (r.w + 1) = [] :=
        List.drop_eq_nil_iff.mpr (by omega)
      rw [hnew, hsplit, hrhs, hdnil]
      simp
    · have hnew : (r.writeByte b).bytes
          = (r.buf.set r.w b).drop (r.w + 1) ++ (r.buf.set r.w b).take (r.w + 1) := by
        simp [RingBuffer.writeByte, RingBuffer.bytes, hge, hfull]
      rw [hnew, htake, hdrop, hrhs]
  · -- not yet full: contents are buf[:w], of length w < size
    have hfull2 : r.full = false := by
      cases hf : r.full
      · rfl
      · exact absurd hf hfull
    have hbytes : r.bytes = r.buf.take r.w := by
      simp [RingBuffer.bytes, hfull2]
    have hrhs : lastN r.size (r.bytes ++ [b]) = r.buf.take r.w ++ [b] := by
      rw [hbytes]
      apply lastN_of_length_le
      simp only [List.length_append, htwlen, List.length_cons, List.length_nil]
      omega
    by_cases hge : r.w + 1 ≥ r.size
    · have hnew : (r.writeByte b).bytes = r.buf.set r.w b := by
        simp [RingBuffer.writeByte, RingBuffer.bytes, hge]
      have hdnil : r.buf.drop (r.w + 1) = [] :=
        List.drop_eq_nil_iff.mpr (by omega)
      rw [hnew, hsplit, hdnil, hrhs]
    · have hnew : (r.writeByte b).bytes = (r.buf.set r.w b).take (r.w + 1) := by
        simp [RingBuffer.writeByte, RingBuffer.bytes, hge, hfull2]
      rw [hnew, htake, hrhs]

theorem RingBuffer.wf_write {r : RingBuffer} (h : r.WF) (p : List Nat) :
    (r.write p).WF := by
  induction p generalizing r with
  | nil => exact h
  | cons b p ih => exact ih (RingBuffer.wf_writeByte h b)

theorem RingBuffer.size_write (r : RingBuffer) (p : List Nat) :
    (r.write p).size = r.size := by
  induction p generalizing r with
  | nil => rfl
  | cons b p ih =>
    show ((r.writeByte b).write p).size = r.size
    rw [ih, RingBuffer.size_writeByte]

theorem RingBuffer.bytes_write {r : RingBuffer} (h : r.WF) (p : List Nat) :
    (r.write p).bytes = lastN r.size (r.bytes ++ p) := by
  induction p generalizing r with
  | nil =>
    show r.bytes = lastN r.size (r.bytes ++ [])
    rw [List.append_nil, lastN_of_length_le _ _ (RingBuffer.bytes_length_le h)]
  | cons b p ih =>
    show ((r.writeByte b).write p).bytes = lastN r.size (r.bytes ++ b :: p)
    rw [ih (RingBuffer.wf_writeByte h b), RingBuffer.size_writeByte,
      RingBuffer.bytes_writeByte h b, lastN_append_drop]
    rw [List.append_assoc]
    rfl

theorem RingBuffer.wf_writeAll {r : RingBuffer} (h : r.WF) (ws : List (List Nat)) :
    (r.writeAll ws).WF := by
  induction ws generalizing r with
  | nil => exact h
  | cons p ws ih => exact ih (RingBuffer.wf_write h p)

theorem RingBuffer.size_writeAll (r : RingBuffer) (ws : List (List Nat)) :
    (r.writeAll ws).size = r.size := by
  induction ws generalizing r with
  | nil => rfl
  | cons p ws ih =>
    show ((r.write p).writeAll ws).size = r.size
    rw [ih, RingBuffer.size_write]

theorem RingBuffer.bytes_writeAll {r : RingBuffer} (h : r.WF) (ws : List (List Nat)) :
    (r.writeAll ws).bytes = lastN r.size (r.bytes ++ ws.flatten) := by
  induction ws generalizing r with
  | nil =>
    show r.bytes = lastN r.size (r.bytes ++ [])
    rw [List.append_nil, lastN_of_length_le _ _ (RingBuffer.bytes_length_le h)]
  | cons p ws ih =>
    show ((r.write p).writeAll ws).bytes = lastN r.size (r.bytes ++ (p :: ws).flatten)
    rw [ih (RingBuffer.wf_write h p), RingBuffer.size_write,
      RingBuffer.bytes_write h p, lastN_append_drop, List.flatten_cons,
      List.append_assoc]

theorem bytes_new (size : Nat) : (NewRingBuffer size).bytes = [] := by
  simp [NewRingBuffer, RingBuffer.bytes]

/-- C9: For every sequence of `Write` calls on a fresh ring of positive
capacity, `Bytes` (Snapshot) returns the written bytes in chronological
order with length at most the capacity; while the total written is below
the capacity it equals the concatenation of all writes, and from the
point the total reaches the capacity it equals the last `size` bytes
written (newest overwrite oldest).  `Write` is a total function — it
never fails. -/
theorem ringBuffer_snapshot_spec (size : Nat) (hsize : 0 < size)
    (ws : List (List Nat)) :
    ((NewRingBuffer size).writeAll ws).bytes.length ≤ size
    ∧ (ws.flatten.length < size → ((NewRingBuffer size).writeAll ws).bytes = ws.flatten)
    ∧ (size ≤ ws.flatten.length →
        ((NewRingBuffer size).writeAll ws).bytes
          = ws.flatten.drop (ws.flatten.length - size)) := by
  have hwf := RingBuffer.wf_new size hsize
  have hb := RingBuffer.bytes_writeAll hwf ws
  rw [bytes_new] at hb
  have hsz : (NewRingBuffer size).size = size := rfl
  rw [hsz, List.nil_append] at hb
  refine ⟨?_, ?_, ?_⟩
  · have := lastN_length_le size ws.flatten
    rw [hb]
    exact this
  · intro hlt
    rw [hb, lastN_of_length_le _ _ (Nat.le_of_lt hlt)]
  · intro hge
    rw [hb]
    rfl

/-- Witness for `ringBuffer_snapshot_spec` at capacity 3 with writes
`[1,2]` then `[3,4]` (total 4 > 3, snapshot is the last three bytes). -/
theorem ringBuffer_snapshot_spec_witness :
    0 < 3
    ∧ (((NewRingBuffer 3).writeAll [[1, 2], [3, 4]]).bytes.length ≤ 3
      ∧ (([[1, 2], [3, 4]] : List (List Nat)).flatten.length < 3 →
          ((NewRingBuffer 3).writeAll [[1, 2], [3, 4]]).bytes
            = ([[1, 2], [3, 4]] : List (List Nat)).flatten)
      ∧ (3 ≤ ([[1, 2], [3, 4]] : List (List Nat)).flatten.length →
          ((NewRingBuffer 3).writeAll [[1, 2], [3, 4]]).bytes
            = ([[1, 2], [3, 4]] : List (List Nat)).flatten.drop
                (([[1, 2], [3, 4]] : List (List Nat)).flatten.length - 3))) :=
  ⟨by decide, ringBuffer_snapshot_spec 3 (by decide) [[1, 2], [3, 4]]⟩

/-! ## Lemmas: restart-argument stripping loops -/

theorem claudeStep_fold (l : List String) : ∀ acc : List String,
    (l.foldl claudeStep (acc, false)).1 = acc ++ stripResumeContinue l
    ∧ (l.foldl claudeStep (acc, true)).1 = acc ++ stripResumeContinue (l.drop 1) := by
  induction l with
  | nil =>
    intro acc
    simp [stripResumeContinue]
  | cons a rest ih =>
    intro acc
    refine ⟨?_, ?_⟩
    · show (rest.foldl claudeStep (claudeStep (acc, false) a)).1
          = acc ++ stripResumeContinue (a :: rest)
      rcases Decidable.em (a = "--resume" ∨ a = "-r") with hres | hres
      · have hstep : claudeStep (acc, false) a = (acc, true) := by
          rcases hres with rfl | rfl <;> simp [claudeStep]
        have hstrip : stripResumeContinue (a :: rest)
            = stripResumeContinue (rest.drop 1) := by
          rcases hres with rfl | rfl <;> cases rest <;> simp [stripResumeContinue]
        rw [hstep, (ih acc).2, hstrip]
      · have ha1 : ¬ a = "--resume" := fun h => hres (Or.inl h)
        have ha2 : ¬ a = "-r" := fun h => hres (Or.inr h)
        rcases Decidable.em (a = "--continue" ∨ a = "-c") with hcont | hcont
        · have hstep : claudeStep (acc, false) a = (acc, false) := by
            rcases hcont with rfl | rfl <;> simp [claudeStep]
          have hstrip : stripResumeContinue (a :: rest)
              = stripResumeContinue rest := by
            rcases hcont with rfl | rfl <;> cases rest <;>
              simp [stripResumeContinue]
          rw [hstep, (ih acc).1, hstrip]
        · have hb1 : ¬ a = "--continue" := fun h => hcont (Or.inl h)
          have hb2 : ¬ a = "-c" := fun h => hcont (Or.inr h)
          have hstep : claudeStep (acc, false) a = (acc ++ [a], false) := by
            simp [claudeStep, ha1, ha2, hb1, hb2]
          have hstrip : stripResumeContinue (a :: rest)
              = a :: stripResumeContinue rest := by
            cases rest <;> simp [stripResumeContinue, ha1, ha2, hb1, hb2]
          rw [hstep, (ih (acc ++ [a])).1, hstrip]
          simp
    · show (rest.foldl claudeStep (claudeStep (acc, true) a)).1
          = acc ++ stripResumeContinue ((a :: rest).drop 1)
      have hstep : claudeStep (acc, true) a = (acc, false) := by
        simp [claudeStep]
      rw [hstep, (ih acc).1]
      rfl

theorem geminiStep_fold (l : List String) : ∀ acc : List String,
    (l.foldl geminiStep (acc, false)).1 = acc ++ stripResume l
    ∧ (l.foldl geminiStep (acc, true)).1 = acc ++ stripResume (l.drop 1) := by
  induction l with
  | nil =>
    intro acc
    simp [stripResume]
  | cons a rest ih =>
    intro acc
    refine ⟨?_, ?_⟩
    · show (rest.foldl geminiStep (geminiStep (acc, false) a)).1
          = acc ++ stripResume (a :: rest)
      rcases Decidable.em (a = "--resume" ∨ a = "-r") with hres | hres
      · have hstep : geminiStep (acc, false) a = (acc, true) := by
          rcases hres with rfl | rfl <;> simp [geminiStep]
        have hstrip : stripResume (a :: rest) = stripResume (rest.drop 1) := by
          rcases hres with rfl | rfl <;> cases rest <;> simp [stripResume]
        rw [hstep, (ih acc).2, hstrip]
      · have ha1 : ¬ a = "--resume" := fun h => hres (Or.inl h)
        have ha2 : ¬ a = "-r" := fun h => hres (Or.inr h)
        have hstep : geminiStep (acc, false) a = (acc ++ [a], false) := by
          simp [geminiStep, ha1, ha2]
        have hstrip : stripResume (a :: rest) = a :: stripResume rest := by
          cases rest <;> simp [stripResume, ha1, ha2]
        rw [hstep, (ih (acc ++ [a])).1, hstrip]
        simp
    · show (rest.foldl geminiStep (geminiStep (acc, true) a)).1
          = acc ++ stripResume ((a :: rest).drop 1)
      have hstep : geminiStep (acc, true) a = (acc, false) := by
        simp [geminiStep]
      rw [hstep, (ih acc).1]
      rfl

theorem claudeStripFold_eq (l : List String) :
    claudeStripFold l = stripResumeContinue l := by
  have h := (claudeStep_fold l []).1
  simpa [claudeStripFold] using h

theorem geminiStripFold_eq (l : List String) :
    geminiStripFold l = stripResume l := by
  have h := (geminiStep_fold l []).1
  simpa [geminiStripFold] using h

/-- C6: the per-tool restart-argument builder behaves as the spec table
describes: claude gets the original args with every `--resume`/`-r`
(and its value) and `--continue`/`-c` removed, then `--resume <id>` when
the tool-session id is known, else `--continue`; codex gets exactly
`resume <id>` when known, else `resume --last`; gemini gets the original
args with every `--resume`/`-r` (and value) removed, then
`--resume latest`; the internal mux tool gets
`new-session -A -s <id>` when the id is set; any other tool keeps the
original args unchanged. -/
theorem buildRestartArgs_spec (tool : String) (args : List String)
    (tsid : String) :
    (buildRestartArgs "claude" args tsid
      = stripResumeContinue args
        ++ (if tsid ≠ "" then ["--resume", tsid] else ["--continue"]))
    ∧ (buildRestartArgs "codex" args tsid
      = if tsid ≠ "" then ["resume", tsid] else ["resume", "--last"])
    ∧ (buildRestartArgs "gemini" args tsid
      = stripResume args ++ ["--resume", "latest"])
    ∧ (tsid ≠ "" →
        buildRestartArgs "tmux" args tsid = ["new-session", "-A", "-s", tsid])
    ∧ (tool ≠ "claude" → tool ≠ "codex" → tool ≠ "gemini" → tool ≠ "tmux" →
        buildRestartArgs tool args tsid = args) := by
  refine ⟨?_, ?_, ?_, ?_, ?_⟩
  · rw [show buildRestartArgs "claude" args tsid
        = (if tsid ≠ "" then claudeStripFold args ++ ["--resume", tsid]
           else claudeStripFold args ++ ["--continue"]) from by
      simp [buildRestartArgs]]
    rw [claudeStripFold_eq]
    split <;> rfl
  · simp [buildRestartArgs]
  · rw [show buildRestartArgs "gemini" args tsid
        = geminiStripFold args ++ ["--resume", "latest"] from by
      simp [buildRestartArgs]]
    rw [geminiStripFold_eq]
  · intro h
    simp [buildRestartArgs, h]
  · intro h1 h2 h3 h4
    simp [buildRestartArgs, h1, h2, h3, h4]

/-- Witness for `buildRestartArgs_spec` at concrete inputs, with the
conditional conjuncts discharged at tool "tmux" and an unlisted tool. -/
theorem buildRestartArgs_spec_witness :
    buildRestartArgs "tmux" ["a"] "T" = ["new-session", "-A", "-s", "T"]
    ∧ buildRestartArgs "foo" ["a"] "T" = ["a"] :=
  ⟨(buildRestartArgs_spec "foo" ["a"] "T").2.2.2.1 (by decide),
   (buildRestartArgs_spec "foo" ["a"] "T").2.2.2.2 (by decide) (by decide)
     (by decide) (by decide)⟩


/-! ## C1: store load and orphan-cleanup gating -/

/-- C1: `Store.Load` returns an empty list and no error when the
sessions file is absent, and a non-nil error on read or parse failure;
`NewManager` runs orphan cleanup — killing exactly the listed `kojo_`
tmux sessions that are not in the known-running set and removing
exactly the stale FIFOs not in that set — if and only if `Load` did not
return an error. -/
theorem store_load_orphan_cleanup_gate (env : TmuxEnv)
    (file : ReadFileResult) (now : Int) :
    storeLoad .notExist now = .ok []
    ∧ storeLoad .readError now = .error ()
    ∧ storeLoad (.content none) now = .error ()
    ∧ ((newManager env file now).cleanup.isSome
        ↔ ∃ infos, storeLoad file now = .ok infos)
    ∧ (∀ infos names, storeLoad file now = .ok infos →
        env.listKojo = some names →
        (newManager env file now).cleanup = some
          { kills := names.filter (fun n =>
              ¬ n ∈ knownRunning (newManager env file now).sessions),
            fifoRemovals := env.staleFifos.filter (fun n =>
              ¬ n ∈ knownRunning (newManager env file now).sessions) }) := by
  refine ⟨rfl, rfl, rfl, ?_, ?_⟩
  · cases hf : storeLoad file now with
    | error e =>
      constructor
      · intro h
        exfalso
        simp [newManager, loadPersistedSessions, hf] at h
      · rintro ⟨infos, hinfos⟩
        exact Except.noConfusion hinfos
    | ok infos =>
      constructor
      · intro _
        exact ⟨infos, rfl⟩
      · intro _
        simp [newManager, loadPersistedSessions, hf]
  · intro infos names hinf hlist
    simp only [newManager, loadPersistedSessions, hinf, hlist,
      cleanupOrphaned, if_pos]


/-- Witness for `store_load_orphan_cleanup_gate`: with an empty parsed
sessions file and one listed orphan, cleanup runs and targets it. -/
theorem store_load_orphan_cleanup_gate_witness :
    (newManager tmuxEnvW (.content (some [])) 0).cleanup = some
      { kills := ["kojo_a"].filter (fun n =>
          ¬ n ∈ knownRunning
            (newManager tmuxEnvW (.content (some [])) 0).sessions),
        fifoRemovals := tmuxEnvW.staleFifos.filter (fun n =>
          ¬ n ∈ knownRunning
            (newManager tmuxEnvW (.content (some [])) 0).sessions) } :=
  (store_load_orphan_cleanup_gate tmuxEnvW (.content (some [])) 0).2.2.2.2
    [] ["kojo_a"] rfl rfl

/-! ## C3: Create/Restart preserve the original args -/

theorem managerCreate_inserted_fields {env : CreateEnv}
    {existing : List Session} {tool workDir : String} {args : List String}
    {yolo : Bool} {parentId : String} {now : Int} {s : Session}
    {runArgs : List String}
    (h : managerCreate env existing tool workDir args yolo parentId now
      = .inserted s runArgs) :
    s.args = args ∧ s.tool = tool ∧ s.status = .running
    ∧ s.exitCode = none ∧ s.lastOutput = none ∧ s.doneClosed = false
    ∧ s.doneCloseCount = 0 ∧ s.restarting = false := by
  simp only [managerCreate] at h
  repeat' split at h
  all_goals
    first
      | exact CreateOutcome.noConfusion h
      | (cases h; exact ⟨rfl, rfl, rfl, rfl, rfl, rfl, rfl, rfl⟩)

theorem managerRestart_fields {env : CreateEnv} {s s2 : Session}
    {ra : List String} (h : managerRestart env s = some (s2, ra)) :
    s2.args = s.args ∧ s2.status = .running ∧ s2.exitCode = none
    ∧ s2.lastOutput = none ∧ s2.doneClosed = false ∧ s2.doneCloseCount = 0
    ∧ ra = buildRestartArgs s.tool s.args s.toolSessionId := by
  simp only [managerRestart] at h
  repeat' split at h
  all_goals
    first
      | exact Option.noConfusion h
      | (cases h; exact ⟨rfl, rfl, rfl, rfl, rfl, rfl, rfl⟩)

/-- Counterexample to C3 as stated: a successful `Create` can return an
existing running duplicate child whose stored args are those of the
earlier `Create`, not the args of this call. -/
theorem create_args_counterexample :
    managerCreate createEnvW [sessionDupW] "claude" "/w" ["y"] false "p" 0
      = .dup sessionDupW
    ∧ sessionDupW.args ≠ ["y"] := by
  constructor
  · rfl
  · decide

/-- C3 (amended): for every `Create` that inserts a new record (the
concurrent-duplicate branch not taken), the stored args are exactly the
args passed in — without the injected `--session-id`/resume flags — and
a `Restart` after the session exits keeps the stored args equal to the
original args even though the relaunch uses the per-tool restart args. -/
theorem create_restart_preserve_args (env env2 : CreateEnv)
    (existing : List Session) (tool workDir : String) (args : List String)
    (yolo : Bool) (parentId : String) (now : Int) (s s2 : Session)
    (runArgs ra2 : List String) (code : Int) (scroll : List Nat)
    (h : managerCreate env existing tool workDir args yolo parentId now
      = .inserted s runArgs)
    (h2 : managerRestart env2 (completeExitS s code scroll)
      = some (s2, ra2)) :
    s.args = args
    ∧ s2.args = args
    ∧ ra2 = buildRestartArgs tool args s.toolSessionId := by
  have h1 := managerCreate_inserted_fields h
  have h3 := managerRestart_fields h2
  have hargs : (completeExitS s code scroll).args = args := h1.1
  have htool : (completeExitS s code scroll).tool = tool := h1.2.1
  have htsid : (completeExitS s code scroll).toolSessionId
      = s.toolSessionId := rfl
  refine ⟨h1.1, ?_, ?_⟩
  · rw [h3.1, hargs]
  · rw [h3.2.2.2.2.2.2, hargs, htool, htsid]

/-- Witness for `create_restart_preserve_args`: create a claude session
with args `["--model", "opus"]` (launched with the injected
`--session-id U`), let it exit, restart it. -/
theorem create_restart_preserve_args_witness :
    (mkCreatedSession "s_1" "claude" "/w" ["--model", "opus"] false "" "U" 0
        true).args = ["--model", "opus"]
    ∧ (restartUpdate
        (completeExitS
          (mkCreatedSession "s_1" "claude" "/w" ["--model", "opus"] false ""
            "U" 0 true) 0 [])
        "kojo_s_1" true).args = ["--model", "opus"]
    ∧ buildRestartArgs "claude" ["--model", "opus"] "U"
      = buildRestartArgs "claude" ["--model", "opus"]
          (mkCreatedSession "s_1" "claude" "/w" ["--model", "opus"] false ""
            "U" 0 true).toolSessionId :=
  ⟨(create_restart_preserve_args createEnvW createEnvW [] "claude" "/w"
      ["--model", "opus"] false "" 0 _ _ _ _ 0 [] rfl rfl).1,
   (create_restart_preserve_args createEnvW createEnvW [] "claude" "/w"
      ["--model", "opus"] false "" 0 _ _ _ _ 0 [] rfl rfl).2.1,
   rfl⟩


/-! ## C5 and C10: exit-code / done-channel invariants -/

theorem restore_branch_facts (env : TmuxEnv) (info : SessionInfo) :
    ((restoreSession env info).1.status = .exited
      ∨ (restoreSession env info).1.exitCode = none)
    ∧ ((restoreSession env info).1.doneClosed = true
        ↔ (restoreSession env info).1.status = .exited)
    ∧ (restoreSession env info).1.doneCloseCount ≤ 1
    ∧ ((restoreSession env info).1.doneCloseCount = 1
        ↔ (restoreSession env info).1.status = .exited)
    ∧ ((restoreSession env info).1.status = .running
        ∨ (restoreSession env info).1.doneClosed = true) := by
  simp only [restoreSession]
  repeat' split
  all_goals simp

/-- Lifecycle invariant shared by C5 and C10, proved by induction over
reachable session records: a present exit code implies exited status,
and the `done` channel is closed exactly when the record is exited —
with at most one close per epoch (`doneCloseCount ≤ 1`). -/
theorem reachable_invariant {s : Session} (h : Reachable s) :
    (s.exitCode.isSome = true → s.status = .exited)
    ∧ (s.doneClosed = true ↔ s.status = .exited)
    ∧ s.doneCloseCount ≤ 1
    ∧ (s.doneCloseCount = 1 ↔ s.status = .exited) := by
  induction h with
  | create env existing tool workDir args yolo parentId now s0 ra hc =>
    obtain ⟨-, -, h1, h2, -, h3, h4, -⟩ := managerCreate_inserted_fields hc
    rw [h1, h2, h3, h4]
    simp
  | load env info =>
    obtain ⟨hor, hiff, hle, hone, -⟩ := restore_branch_facts env info
    refine ⟨?_, hiff, hle, hone⟩
    intro hsome
    rcases hor with hx | hx
    · exact hx
    · rw [hx] at hsome
      exact Bool.noConfusion hsome
  | exitStep s0 code scroll hr hrun ih =>
    obtain ⟨-, hiff, hle, hone⟩ := ih
    have h0 : s0.doneCloseCount = 0 := by
      rcases Nat.lt_or_ge s0.doneCloseCount 1 with hx | hx
      · omega
      · exfalso
        have h1 : s0.doneCloseCount = 1 := by omega
        have h2 := hone.mp h1
        rw [hrun] at h2
        exact Status.noConfusion h2
    refine ⟨fun _ => rfl, by simp [completeExitS], ?_, ?_⟩
    · show s0.doneCloseCount + 1 ≤ 1
      omega
    · show s0.doneCloseCount + 1 = 1 ↔ Status.exited = Status.exited
      constructor
      · intro _
        rfl
      · intro _
        omega
  | restartStep env s0 s2 ra hr hrest ih =>
    obtain ⟨-, h1, h2, -, h3, h4, -⟩ := managerRestart_fields hrest
    rw [h1, h2, h3, h4]
    simp
  | detachStep s0 hr ih =>
    simpa [detachS] using ih

/-- Counterexample to C5 as stated: the startup load reconstructs a
record persisted while running (exit code never captured, no backing
tmux session) as exited with `exitCode` and `lastOutput` absent. -/
theorem exited_without_exitCode_counterexample :
    Reachable (restoreSession tmuxEnvW infoCrashW).1
    ∧ (restoreSession tmuxEnvW infoCrashW).1.status = .exited
    ∧ (restoreSession tmuxEnvW infoCrashW).1.exitCode = none
    ∧ (restoreSession tmuxEnvW infoCrashW).1.lastOutput = none :=
  ⟨Reachable.load tmuxEnvW infoCrashW, by decide, by decide, by decide⟩

/-- C5 (amended): for every reachable session record, a present
`exitCode` implies status exited; every exit that goes through
`completeExit` (Create/Restart epochs ending in this process) sets
status exited together with `exitCode` and `lastOutput` (possibly
empty).  Sessions reconstructed as exited by the startup load may lack
`exitCode` and `lastOutput` when the persisted record lacked them. -/
theorem exitCode_implies_exited (s : Session) (hs : Reachable s)
    (code : Int) (scroll : List Nat) :
    (s.exitCode.isSome = true → s.status = .exited)
    ∧ (completeExitS s code scroll).status = .exited
    ∧ (completeExitS s code scroll).exitCode = some code
    ∧ (completeExitS s code scroll).lastOutput = some (lastN 8192 scroll) :=
  ⟨(reachable_invariant hs).1, rfl, rfl, rfl⟩

/-- Witness for `exitCode_implies_exited` at a record loaded from a
dead tmux pane (exit code 2 recorded, status exited). -/
theorem exitCode_implies_exited_witness :
    ((restoreSession tmuxEnvDeadW infoDeadW).1.exitCode.isSome = true →
      (restoreSession tmuxEnvDeadW infoDeadW).1.status = .exited)
    ∧ (completeExitS (restoreSession tmuxEnvDeadW infoDeadW).1 0 []).status
        = .exited
    ∧ (completeExitS (restoreSession tmuxEnvDeadW infoDeadW).1 0 []).exitCode
        = some 0
    ∧ (completeExitS (restoreSession tmuxEnvDeadW infoDeadW).1 0 []).lastOutput
        = some (lastN 8192 []) :=
  exitCode_implies_exited _ (Reachable.load tmuxEnvDeadW infoDeadW) 0 []

/-- C10: for every reachable record, status exited implies the `done`
channel is closed (and conversely an open `done` means running), with
at most one close per lifecycle epoch; `completeExit` closes `done`
in the same atomic update that sets status and `lastOutput`; `Restart`
installs a fresh unclosed `done` in the same critical section that sets
status running; the startup load closes `done` for every record it does
not reattach as running. -/
theorem done_closed_iff_exited (s : Session) (hs : Reachable s)
    (code : Int) (scroll : List Nat) (env2 : CreateEnv) (s2 : Session)
    (ra : List String) (env : TmuxEnv) (info : SessionInfo) :
    (s.status = .exited → s.doneClosed = true)
    ∧ (s.doneClosed = true ↔ s.status = .exited)
    ∧ s.doneCloseCount ≤ 1
    ∧ (s.doneCloseCount = 1 ↔ s.status = .exited)
    ∧ (completeExitS s code scroll).doneClosed = true
    ∧ (completeExitS s code scroll).status = .exited
    ∧ (completeExitS s code scroll).lastOutput = some (lastN 8192 scroll)
    ∧ (managerRestart env2 s = some (s2, ra) →
        s2.doneClosed = false ∧ s2.status = .running
          ∧ s2.doneCloseCount = 0)
    ∧ ((restoreSession env info).1.status = .running
        ∨ (restoreSession env info).1.doneClosed = true) := by
  obtain ⟨-, hiff, hle, hone⟩ := reachable_invariant hs
  refine ⟨fun hx => hiff.mpr hx, hiff, hle, hone, rfl, rfl, rfl, ?_, ?_⟩
  · intro hrest
    obtain ⟨-, h1, -, -, h2, h3, -⟩ := managerRestart_fields hrest
    exact ⟨h2, h1, h3⟩
  · exact (restore_branch_facts env info).2.2.2.2

/-- Witness for `done_closed_iff_exited` at a loaded dead-pane record
(exited, done closed once). -/
theorem done_closed_iff_exited_witness :
    ((restoreSession tmuxEnvDeadW infoDeadW).1.status = .exited →
      (restoreSession tmuxEnvDeadW infoDeadW).1.doneClosed = true)
    ∧ ((restoreSession tmuxEnvDeadW infoDeadW).1.doneClosed = true
        ↔ (restoreSession tmuxEnvDeadW infoDeadW).1.status = .exited)
    ∧ (restoreSession tmuxEnvDeadW infoDeadW).1.doneCloseCount ≤ 1
    ∧ ((restoreSession tmuxEnvDeadW infoDeadW).1.doneCloseCount = 1
        ↔ (restoreSession tmuxEnvDeadW infoDeadW).1.status = .exited)
    ∧ (completeExitS (restoreSession tmuxEnvDeadW infoDeadW).1 0
        []).doneClosed = true
    ∧ (completeExitS (restoreSession tmuxEnvDeadW infoDeadW).1 0 []).status
        = .exited
    ∧ (completeExitS (restoreSession tmuxEnvDeadW infoDeadW).1 0
        []).lastOutput = some (lastN 8192 [])
    ∧ (managerRestart createEnvW (restoreSession tmuxEnvDeadW infoDeadW).1
        = some ((restoreSession tmuxEnvDeadW infoDeadW).1, []) →
        ((restoreSession tmuxEnvDeadW infoDeadW).1).doneClosed = false
          ∧ ((restoreSession tmuxEnvDeadW infoDeadW).1).status = .running
          ∧ ((restoreSession tmuxEnvDeadW infoDeadW).1).doneCloseCount = 0)
    ∧ ((restoreSession tmuxEnvW infoCrashW).1.status = .running
        ∨ (restoreSession tmuxEnvW infoCrashW).1.doneClosed = true) :=
  done_closed_iff_exited _ (Reachable.load tmuxEnvDeadW infoDeadW) 0 []
    createEnvW _ [] tmuxEnvW infoCrashW


/-! ## C2: StopAll detaches tmux-backed sessions without killing them -/

theorem stopActions_kill_mem (sessions : List Session) :
    ∀ (fuel : Nat) (s : Session), s ∈ sessions →
    ∀ name, Action.killSession name ∈ stopActions sessions fuel s →
      name = s.tmuxName
      ∨ ∃ u ∈ sessions, u.tool = "tmux"
          ∧ (name = u.toolSessionId ∨ name = u.tmuxName) := by
  intro fuel
  induction fuel with
  | zero =>
    intro s hs name hmem
    simp [stopActions] at hmem
  | succ fuel ih =>
    intro s hs name hmem
    rw [stopActions] at hmem
    split at hmem
    · simp at hmem
    · simp only [List.mem_append] at hmem
      rcases hmem with ((h1 | h2) | h3) | h4
      · left
        split at h1
        · simp at h1
          exact h1
        · simp at h1
      · right
        split at h2
        · next hcond =>
          simp only [Bool.and_eq_true, decide_eq_true_eq] at hcond
          simp at h2
          exact ⟨s, hs, hcond.1, Or.inl h2⟩
        · simp at h2
      · simp only [List.mem_flatten, List.mem_map] at h3
        obtain ⟨l, ⟨c, hc, rfl⟩, hmem2⟩ := h3
        simp only [List.mem_filter, Bool.and_eq_true, decide_eq_true_eq]
          at hc
        have hcmem : c ∈ sessions := hc.1
        have hctool : c.tool = "tmux" := hc.2.1.2
        rcases ih c hcmem name hmem2 with hx | ⟨u, hu, hut, hud⟩
        · right
          exact ⟨c, hcmem, hctool, Or.inr hx⟩
        · right
          exact ⟨u, hu, hut, hud⟩
      · simp at h4

theorem applyTrace_mem_preserved (tr : List Action) :
    ∀ (world : List String) (name : String),
      Action.killSession name ∉ tr → name ∈ world →
      name ∈ applyTrace world tr := by
  induction tr with
  | nil =>
    intro world name _ hm
    exact hm
  | cons a tr ih =>
    intro world name h hm
    have ha : a ≠ Action.killSession name := by
      intro hx
      exact h (hx ▸ List.mem_cons_self a tr)
    have h2 : Action.killSession name ∉ tr := by
      intro hx
      exact h (List.mem_cons_of_mem a hx)
    show name ∈ applyTrace (applyAction world a) tr
    apply ih _ _ h2
    cases a with
    | killSession n =>
      have hne : name ≠ n := by
        intro hx
        exact ha (by rw [hx])
      simp only [applyAction, List.mem_filter, decide_eq_true_eq]
      exact ⟨hm, hne⟩
    | sigterm i => exact hm
    | stopPipePane i => exact hm
    | killAttach i => exact hm
    | closePTY i => exact hm

theorem mem_tmuxListKojoS {name : String} {world : List String} :
    name ∈ tmuxListKojoS world
      ↔ name ∈ world ∧ strHasPrefix name "kojo_" = true := by
  simp [tmuxListKojoS, List.mem_filter]

/-- C2: after `StopAll`, every running direct-PTY session (whose process
died within the per-session wait) has transitioned to exited, and every
running tmux-backed session is only detached — pipe-pane stopped, attach
process killed, attach PTY closed — while its status stays running, no
`killSession` for its tmux session appears anywhere in the action trace,
and its tmux session remains enumerable by `listKojoSessions`.
Hypotheses `hTmuxTool`/`hNames` are the naming invariants of
manager-created sessions: internal tmux-tool sessions are never
tmux-backed, and a backing tmux session name (`kojo_` + own id) never
equals another record's tool-session id. -/
theorem stopAll_detach_spec (mgr : List Session) (env : StopAllEnv)
    (world : List String) (s t : Session)
    (hTmuxTool : ∀ u ∈ mgr, u.tool = "tmux" → u.tmuxName = "")
    (hNames : ∀ u ∈ mgr, t.tmuxName ≠ u.toolSessionId)
    (hExitsS : env.exitsInTime s.id = true)
    (hs : s ∈ mgr) (hs1 : s.status = .running) (hs2 : s.tmuxName = "")
    (ht : t ∈ mgr) (ht1 : t.status = .running) (ht2 : t.tmuxName ≠ "")
    (hw : t.tmuxName ∈ tmuxListKojoS world) :
    (stopAllUpdate env s).status = .exited
    ∧ stopAllUpdate env t = detachS t
    ∧ (stopAllUpdate env t).status = .running
    ∧ (stopAllUpdate env t).hasPTY = false
    ∧ (stopAllUpdate env t).hasRawPipe = false
    ∧ (stopAllS mgr env).1 = mgr.map (stopAllUpdate env)
    ∧ Action.killSession t.tmuxName ∉ (stopAllS mgr env).2
    ∧ t.tmuxName ∈ tmuxListKojoS (applyTrace world (stopAllS mgr env).2) := by
  have hupd_s : stopAllUpdate env s
      = completeExitS s (env.exitCodeOf s.id) (env.scrollOf s.id) := by
    simp [stopAllUpdate, hs1, hs2, hExitsS]
  have hupd_t : stopAllUpdate env t = detachS t := by
    simp [stopAllUpdate, ht1, ht2]
  have hkill : Action.killSession t.tmuxName ∉ (stopAllS mgr env).2 := by
    intro hmem
    simp only [stopAllS, List.mem_append] at hmem
    rcases hmem with h1 | h2
    · simp only [List.mem_flatten, List.mem_map] at h1
      obtain ⟨l, ⟨u, hu, rfl⟩, hmem2⟩ := h1
      simp only [List.mem_filter, Bool.and_eq_true, decide_eq_true_eq]
        at hu
      have humem : u ∈ mgr := hu.1
      have huname : u.tmuxName = "" := hu.2.2
      rcases stopActions_kill_mem mgr (mgr.length + 1) u humem t.tmuxName
          hmem2 with hx | ⟨v, hv, hvt, hvd⟩
      · rw [huname] at hx
        exact ht2 hx
      · rcases hvd with hx | hx
        · exact hNames v hv hx
        · rw [hTmuxTool v hv hvt] at hx
          exact ht2 hx
    · simp only [List.mem_flatten, List.mem_map] at h2
      obtain ⟨l, ⟨u, hu, rfl⟩, hmem2⟩ := h2
      simp at hmem2
  refine ⟨?_, hupd_t, ?_, ?_, ?_, rfl, hkill, ?_⟩
  · rw [hupd_s]
    rfl
  · rw [hupd_t]
    exact ht1
  · rw [hupd_t]
    rfl
  · rw [hupd_t]
    rfl
  · obtain ⟨hw1, hw2⟩ := mem_tmuxListKojoS.mp hw
    exact mem_tmuxListKojoS.mpr
      ⟨applyTrace_mem_preserved _ _ _ hkill hw1, hw2⟩

/-- Witness for `stopAll_detach_spec`: one running internal direct-PTY
session and one running tmux-backed session; after `StopAll` the first
is exited, the second stays running with its tmux session still listed. -/
theorem stopAll_detach_spec_witness :
    (stopAllUpdate stopAllEnvW sessionDirectW).status = .exited
    ∧ stopAllUpdate stopAllEnvW sessionMuxW = detachS sessionMuxW
    ∧ (stopAllUpdate stopAllEnvW sessionMuxW).status = .running
    ∧ (stopAllUpdate stopAllEnvW sessionMuxW).hasPTY = false
    ∧ (stopAllUpdate stopAllEnvW sessionMuxW).hasRawPipe = false
    ∧ (stopAllS [sessionDirectW, sessionMuxW] stopAllEnvW).1
        = [sessionDirectW, sessionMuxW].map (stopAllUpdate stopAllEnvW)
    ∧ Action.killSession sessionMuxW.tmuxName
        ∉ (stopAllS [sessionDirectW, sessionMuxW] stopAllEnvW).2
    ∧ sessionMuxW.tmuxName ∈ tmuxListKojoS
        (applyTrace ["kojo_m1"]
          (stopAllS [sessionDirectW, sessionMuxW] stopAllEnvW).2) :=
  stopAll_detach_spec [sessionDirectW, sessionMuxW] stopAllEnvW
    ["kojo_m1"] sessionDirectW sessionMuxW
    (by decide) (by decide) (by decide)
    (by decide) (by decide) (by decide)
    (by decide) (by decide) (by decide) (by decide)


/-! ## C7: CheckYolo matches and clears the tail -/

/-- C7: for a session with yolo mode enabled, when the cleaned rolling
tail (input bytes appended, truncated to the last 4096 bytes, control
sequences stripped and whitespace normalized) contains the approval
pattern — `Do you <non-space> …?` followed within 200 characters by
`1. Yes` — `CheckYolo` returns a non-nil approval and clears the
rolling tail, so an immediately subsequent call with unrelated bytes
(bytes whose own cleaned tail does not contain the pattern) returns
nil. -/
theorem checkYolo_match_clears_tail (st : YoloState)
    (data data2 : List Nat) (hMode : st.yoloMode = true)
    (hFound : yoloFound (cleanse (lastN yoloTailSize (st.yoloTail ++ data)))
      = true)
    (hUnrelated : yoloFound (cleanse (lastN yoloTailSize data2)) = false) :
    (checkYolo st data).1 = some ()
    ∧ (checkYolo st data).2.2.yoloTail = []
    ∧ (checkYolo st data).2.2.yoloMode = true
    ∧ (checkYolo (checkYolo st data).2.2 data2).1 = none := by
  have h1 : checkYolo st data
      = (some (), cleanse (lastN yoloTailSize (st.yoloTail ++ data)),
          { st with yoloTail := [] }) := by
    simp [checkYolo, hMode, hFound]
  rw [h1]
  refine ⟨rfl, rfl, hMode, ?_⟩
  show (checkYolo { st with yoloTail := [] } data2).1 = none
  simp [checkYolo, hMode, hUnrelated]

/-- Witness for `checkYolo_match_clears_tail`: the basic prompt
`"Do you want to proceed? 1. Yes"` on an armed session with empty
tail, then unrelated output. -/
theorem checkYolo_match_clears_tail_witness :
    (checkYolo ⟨true, []⟩ yoloPromptW).1 = some ()
    ∧ (checkYolo ⟨true, []⟩ yoloPromptW).2.2.yoloTail = []
    ∧ (checkYolo ⟨true, []⟩ yoloPromptW).2.2.yoloMode = true
    ∧ (checkYolo (checkYolo ⟨true, []⟩ yoloPromptW).2.2 unrelatedW).1
        = none :=
  checkYolo_match_clears_tail ⟨true, []⟩ yoloPromptW unrelatedW rfl
    (by decide) (by decide)

/-! ## C8: the control-sequence stripper -/

theorem length_dropWhile_le (p : Nat → Bool) (l : List Nat) :
    (l.dropWhile p).length ≤ l.length :=
  (List.dropWhile_sublist p).length_le

theorem matchCsi_some_length {l r : List Nat} (h : matchCsi l = some r) :
    r.length < l.length := by
  unfold matchCsi at h
  split at h
  · exact Option.noConfusion h
  · next b rest heq =>
    split at h
    · have hr : rest = r := by injection h
      subst hr
      have h2 : (b :: rest).length ≤ l.length := by
        rw [← heq]
        exact le_trans (length_dropWhile_le _ _) (length_dropWhile_le _ _)
      simp only [List.length_cons] at h2
      omega
    · exact Option.noConfusion h

theorem matchOsc_some_length : ∀ {l r : List Nat},
    matchOsc l = some r → r.length < l.length := by
  intro l
  induction l with
  | nil =>
    intro r h
    exact Option.noConfusion h
  | cons b rest ih =>
    intro r h
    by_cases h7 : b = 7
    · have he : matchOsc (b :: rest) = some rest := by
        cases rest <;> simp [matchOsc, h7]
      rw [he] at h
      have hr : rest = r := by injection h
      subst hr
      simp
    · by_cases h27 : b = 27
      · cases rest with
        | nil =>
          have he : matchOsc [b] = none := by simp [matchOsc, h7]
          rw [he] at h
          exact Option.noConfusion h
        | cons r2 rest2 =>
          by_cases h92 : r2 = 92
          · have he : matchOsc (b :: r2 :: rest2) = some rest2 := by
              simp [matchOsc, h7, h27, h92]
            rw [he] at h
            have hr : rest2 = r := by injection h
            subst hr
            simp only [List.length_cons]
            omega
          · have he : matchOsc (b :: r2 :: rest2) = matchOsc (r2 :: rest2) := by
              simp [matchOsc, h7, h27, h92]
            rw [he] at h
            have hx := ih h
            simp only [List.length_cons] at hx ⊢
            omega
      · by_cases h10 : b = 10
        · have he : matchOsc (b :: rest) = none := by
            cases rest <;> simp [matchOsc, h7, h27, h10]
          rw [he] at h
          exact Option.noConfusion h
        · have he : matchOsc (b :: rest) = matchOsc rest := by
            cases rest <;> simp [matchOsc, h7, h27, h10]
          rw [he] at h
          have hx := ih h
          simp only [List.length_cons] at hx ⊢
          omega

theorem stripAnsiGo_nil (fuel : Nat) : stripAnsiGo fuel [] = [] := by
  cases fuel <;> rfl

/-! One-step unfolding equations for `stripAnsiGo` at each input shape
(established by definitional reduction of the literal tests). -/

theorem stripAnsiGo_nonEsc (fuel : Nat) (b : Nat) (rest : List Nat)
    (hb : ¬ b = 27) :
    stripAnsiGo (fuel + 1) (b :: rest) = b :: stripAnsiGo fuel rest := by
  show (if b = 27 then
          match rest with
          | [] => 27 :: stripAnsiGo fuel rest
          | r1 :: rest2 =>
            if r1 = 91 then
              match matchCsi rest2 with
              | some rem => 32 :: stripAnsiGo fuel rem
              | none => 27 :: stripAnsiGo fuel rest
            else if r1 = 93 then
              match matchOsc rest2 with
              | some rem => 32 :: stripAnsiGo fuel rem
              | none => 27 :: stripAnsiGo fuel rest
            else if r1 = 40 || r1 = 41 then
              match rest2 with
              | [] => 27 :: stripAnsiGo fuel rest
              | b2 :: rest3 =>
                if isDesigByte b2 then 32 :: stripAnsiGo fuel rest3
                else 27 :: stripAnsiGo fuel rest
            else 27 :: stripAnsiGo fuel rest
        else b :: stripAnsiGo fuel rest)
      = b :: stripAnsiGo fuel rest
  rw [if_neg hb]

theorem stripAnsiGo_escNil (fuel : Nat) :
    stripAnsiGo (fuel + 1) [27] = [27] := by
  show 27 :: stripAnsiGo fuel [] = [27]
  rw [stripAnsiGo_nil]

theorem stripAnsiGo_csi (fuel : Nat) (rest2 : List Nat) :
    stripAnsiGo (fuel + 1) (27 :: 91 :: rest2)
      = match matchCsi rest2 with
        | some rem => 32 :: stripAnsiGo fuel rem
        | none => 27 :: stripAnsiGo fuel (91 :: rest2) := by
  rfl

theorem stripAnsiGo_osc (fuel : Nat) (rest2 : List Nat) :
    stripAnsiGo (fuel + 1) (27 :: 93 :: rest2)
      = match matchOsc rest2 with
        | some rem => 32 :: stripAnsiGo fuel rem
        | none => 27 :: stripAnsiGo fuel (93 :: rest2) := by
  rfl

theorem stripAnsiGo_desig40 (fuel : Nat) (b2 : Nat) (rest3 : List Nat) :
    stripAnsiGo (fuel + 1) (27 :: 40 :: b2 :: rest3)
      = if isDesigByte b2 then 32 :: stripAnsiGo fuel rest3
        else 27 :: stripAnsiGo fuel (40 :: b2 :: rest3) := by
  rfl

theorem stripAnsiGo_desig41 (fuel : Nat) (b2 : Nat) (rest3 : List Nat) :
    stripAnsiGo (fuel + 1) (27 :: 41 :: b2 :: rest3)
      = if isDesigByte b2 then 32 :: stripAnsiGo fuel rest3
        else 27 :: stripAnsiGo fuel (41 :: b2 :: rest3) := by
  rfl

theorem stripAnsiGo_escParenNil (fuel : Nat) (r1 : Nat)
    (h : r1 = 40 ∨ r1 = 41) :
    stripAnsiGo (fuel + 1) [27, r1] = 27 :: stripAnsiGo fuel [r1] := by
  rcases h with rfl | rfl <;> rfl

theorem stripAnsiGo_escOther (fuel : Nat) (r1 : Nat) (rest2 : List Nat)
    (h91 : ¬ r1 = 91) (h93 : ¬ r1 = 93) (h40 : ¬ r1 = 40)
    (h41 : ¬ r1 = 41) :
    stripAnsiGo (fuel + 1) (27 :: r1 :: rest2)
      = 27 :: stripAnsiGo fuel (r1 :: rest2) := by
  show (if r1 = 91 then
          match matchCsi rest2 with
          | some rem => 32 :: stripAnsiGo fuel rem
          | none => 27 :: stripAnsiGo fuel (r1 :: rest2)
        else if r1 = 93 then
          match matchOsc rest2 with
          | some rem => 32 :: stripAnsiGo fuel rem
          | none => 27 :: stripAnsiGo fuel (r1 :: rest2)
        else if r1 = 40 || r1 = 41 then
          match rest2 with
          | [] => 27 :: stripAnsiGo fuel (r1 :: rest2)
          | b2 :: rest3 =>
            if isDesigByte b2 then 32 :: stripAnsiGo fuel rest3
            else 27 :: stripAnsiGo fuel (r1 :: rest2)
        else 27 :: stripAnsiGo fuel (r1 :: rest2))
      = 27 :: stripAnsiGo fuel (r1 :: rest2)
  rw [if_neg h91, if_neg h93, if_neg (by simp [h40, h41])]

/-- Adequate fuel: with at least `l.length` units of fuel the scan is
fuel-independent. -/
theorem stripAnsiGo_fuel : ∀ (fuel : Nat) (l : List Nat),
    l.length ≤ fuel → stripAnsiGo fuel l = stripAnsiGo l.length l := by
  intro fuel
  induction fuel using Nat.strong_induction_on with
  | _ fuel ih =>
    intro l hl
    match fuel, hl with
    | 0, hl =>
      have hn : l = [] := List.eq_nil_of_length_eq_zero (Nat.le_zero.mp hl)
      subst hn
      rfl
    | fuel + 1, hl =>
      cases l with
      | nil => simp [stripAnsiGo_nil]
      | cons b rest =>
        have hrest : rest.length ≤ fuel := by
          simp only [List.length_cons] at hl
          omega
        have hcall : ∀ (x : List Nat), x.length ≤ fuel →
            x.length ≤ rest.length →
            stripAnsiGo fuel x = stripAnsiGo rest.length x := by
          intro x h1 h2
          rw [ih fuel (Nat.lt_succ_self _) x h1,
            ih rest.length (Nat.lt_succ_of_le hrest) x h2]
        show stripAnsiGo (fuel + 1) (b :: rest)
            = stripAnsiGo ((b :: rest).length) (b :: rest)
        simp only [List.length_cons]
        by_cases hb : b = 27
        · subst hb
          cases rest with
          | nil => rw [stripAnsiGo_escNil, stripAnsiGo_escNil]
          | cons r1 rest2 =>
            simp only [List.length_cons] at hrest
            by_cases h91 : r1 = 91
            · subst h91
              rw [stripAnsiGo_csi, stripAnsiGo_csi]
              cases hcm : matchCsi rest2 with
              | some rem =>
                have hlen := matchCsi_some_length hcm
                dsimp only
                rw [hcall rem (by omega)
                  (by simp only [List.length_cons]; omega)]
              | none =>
                dsimp only
                rw [hcall (91 :: rest2)
                  (by simp only [List.length_cons]; omega) (le_refl _)]
            · by_cases h93 : r1 = 93
              · subst h93
                rw [stripAnsiGo_osc, stripAnsiGo_osc]
                cases hcm : matchOsc rest2 with
                | some rem =>
                  have hlen := matchOsc_some_length hcm
                  dsimp only
                  rw [hcall rem (by omega)
                    (by simp only [List.length_cons]; omega)]
                | none =>
                  dsimp only
                  rw [hcall (93 :: rest2)
                    (by simp only [List.length_cons]; omega) (le_refl _)]
              · by_cases h40 : r1 = 40 ∨ r1 = 41
                · cases rest2 with
                  | nil =>
                    rw [stripAnsiGo_escParenNil fuel r1 h40,
                      stripAnsiGo_escParenNil _ r1 h40]
                    rw [hcall [r1] (by simpa using hrest) (le_refl _)]
                  | cons b2 rest3 =>
                    simp only [List.length_cons] at hrest
                    by_cases hd : isDesigByte b2 = true
                    · rcases h40 with rfl | rfl
                      · rw [stripAnsiGo_desig40, stripAnsiGo_desig40,
                          if_pos hd, if_pos hd, hcall rest3 (by omega)
                            (by simp only [List.length_cons]; omega)]
                      · rw [stripAnsiGo_desig41, stripAnsiGo_desig41,
                          if_pos hd, if_pos hd, hcall rest3 (by omega)
                            (by simp only [List.length_cons]; omega)]
                    · rcases h40 with rfl | rfl
                      · rw [stripAnsiGo_desig40, stripAnsiGo_desig40,
                          if_neg hd, if_neg hd,
                          hcall (40 :: b2 :: rest3)
                            (by simp only [List.length_cons]; omega)
                            (le_refl _)]
                      · rw [stripAnsiGo_desig41, stripAnsiGo_desig41,
                          if_neg hd, if_neg hd,
                          hcall (41 :: b2 :: rest3)
                            (by simp only [List.length_cons]; omega)
                            (le_refl _)]
                · have h40x : ¬ r1 = 40 := fun hx => h40 (Or.inl hx)
                  have h41x : ¬ r1 = 41 := fun hx => h40 (Or.inr hx)
                  rw [stripAnsiGo_escOther fuel r1 rest2 h91 h93 h40x h41x,
                    stripAnsiGo_escOther _ r1 rest2 h91 h93 h40x h41x,
                    hcall (r1 :: rest2)
                      (by simp only [List.length_cons]; omega) (le_refl _)]
        · rw [stripAnsiGo_nonEsc fuel b rest hb,
            stripAnsiGo_nonEsc rest.length b rest hb,
            hcall rest hrest (le_refl _)]


/-! Equations of `stripAnsi` at each match shape, and the byte-class
facts they need. -/

theorem final_not_param {f : Nat} (hf : isCsiFinal f = true) :
    isCsiParam f = false := by
  simp only [isCsiFinal, Bool.and_eq_true, decide_eq_true_eq] at hf
  by_cases h : isCsiParam f = true
  · exfalso
    simp only [isCsiParam, Bool.and_eq_true, decide_eq_true_eq] at h
    omega
  · simpa using h

theorem final_not_inter {f : Nat} (hf : isCsiFinal f = true) :
    isCsiInter f = false := by
  simp only [isCsiFinal, Bool.and_eq_true, decide_eq_true_eq] at hf
  by_cases h : isCsiInter f = true
  · exfalso
    simp only [isCsiInter, Bool.and_eq_true, decide_eq_true_eq] at h
    omega
  · simpa using h

theorem inter_not_param {i : Nat} (hi : isCsiInter i = true) :
    isCsiParam i = false := by
  simp only [isCsiInter, Bool.and_eq_true, decide_eq_true_eq] at hi
  by_cases h : isCsiParam i = true
  · exfalso
    simp only [isCsiParam, Bool.and_eq_true, decide_eq_true_eq] at h
    omega
  · simpa using h

theorem matchCsi_spec (ps is post : List Nat) (f : Nat)
    (hps : ∀ b ∈ ps, isCsiParam b = true)
    (his : ∀ b ∈ is, isCsiInter b = true)
    (hf : isCsiFinal f = true) :
    matchCsi (ps ++ is ++ f :: post) = some post := by
  unfold matchCsi
  rw [List.append_assoc]
  have h1 : (ps ++ (is ++ f :: post)).dropWhile isCsiParam
      = (is ++ f :: post).dropWhile isCsiParam :=
    List.dropWhile_append_of_pos hps
  have h2 : (is ++ f :: post).dropWhile isCsiParam = is ++ f :: post := by
    cases is with
    | nil =>
      show (f :: post).dropWhile isCsiParam = f :: post
      rw [List.dropWhile_cons_of_neg (by simp [final_not_param hf])]
    | cons i is2 =>
      show (i :: (is2 ++ f :: post)).dropWhile isCsiParam = _
      rw [List.dropWhile_cons_of_neg
        (by simp [inter_not_param (his i (List.mem_cons_self _ _))])]
      rfl
  have h3 : (is ++ f :: post).dropWhile isCsiInter = f :: post := by
    rw [List.dropWhile_append_of_pos his,
      List.dropWhile_cons_of_neg (by simp [final_not_inter hf])]
  rw [h1, h2, h3]
  dsimp only
  rw [if_pos hf]

theorem matchOsc_bel (body post : List Nat)
    (hbody : ∀ b ∈ body, b ≠ 7 ∧ b ≠ 10 ∧ b ≠ 27) :
    matchOsc (body ++ 7 :: post) = some post := by
  induction body with
  | nil =>
    cases post <;> simp [matchOsc]
  | cons b body2 ih =>
    obtain ⟨h7, h10, h27⟩ := hbody b (List.mem_cons_self _ _)
    have hrest : ∀ x ∈ body2, x ≠ 7 ∧ x ≠ 10 ∧ x ≠ 27 := fun x hx =>
      hbody x (List.mem_cons_of_mem _ hx)
    show matchOsc (b :: (body2 ++ 7 :: post)) = some post
    have he : matchOsc (b :: (body2 ++ 7 :: post))
        = matchOsc (body2 ++ 7 :: post) := by
      cases body2 <;> simp [matchOsc, h7, h27, h10]
    rw [he, ih hrest]

theorem matchOsc_st (body post : List Nat)
    (hbody : ∀ b ∈ body, b ≠ 7 ∧ b ≠ 10 ∧ b ≠ 27) :
    matchOsc (body ++ 27 :: 92 :: post) = some post := by
  induction body with
  | nil => rfl
  | cons b body2 ih =>
    obtain ⟨h7, h10, h27⟩ := hbody b (List.mem_cons_self _ _)
    have hrest : ∀ x ∈ body2, x ≠ 7 ∧ x ≠ 10 ∧ x ≠ 27 := fun x hx =>
      hbody x (List.mem_cons_of_mem _ hx)
    show matchOsc (b :: (body2 ++ 27 :: 92 :: post)) = some post
    have he : matchOsc (b :: (body2 ++ 27 :: 92 :: post))
        = matchOsc (body2 ++ 27 :: 92 :: post) := by
      cases body2 <;> simp [matchOsc, h7, h27, h10]
    rw [he, ih hrest]

theorem stripAnsi_cons_nonEsc (b : Nat) (l : List Nat) (hb : ¬ b = 27) :
    stripAnsi (b :: l) = b :: stripAnsi l := by
  show stripAnsiGo (b :: l).length (b :: l) = b :: stripAnsiGo l.length l
  simp only [List.length_cons]
  exact stripAnsiGo_nonEsc l.length b l hb

theorem stripAnsi_csi (rest2 rem : List Nat)
    (hcm : matchCsi rest2 = some rem) :
    stripAnsi (27 :: 91 :: rest2) = 32 :: stripAnsi rem := by
  have hlen := matchCsi_some_length hcm
  show stripAnsiGo (27 :: 91 :: rest2).length (27 :: 91 :: rest2) = _
  simp only [List.length_cons]
  rw [stripAnsiGo_csi, hcm]
  dsimp only
  rw [stripAnsiGo_fuel (rest2.length + 1) rem (by omega)]
  rfl

theorem stripAnsi_osc (rest2 rem : List Nat)
    (hcm : matchOsc rest2 = some rem) :
    stripAnsi (27 :: 93 :: rest2) = 32 :: stripAnsi rem := by
  have hlen := matchOsc_some_length hcm
  show stripAnsiGo (27 :: 93 :: rest2).length (27 :: 93 :: rest2) = _
  simp only [List.length_cons]
  rw [stripAnsiGo_osc, hcm]
  dsimp only
  rw [stripAnsiGo_fuel (rest2.length + 1) rem (by omega)]
  rfl

theorem stripAnsi_desig40 (x : Nat) (post : List Nat)
    (hx : isDesigByte x = true) :
    stripAnsi (27 :: 40 :: x :: post) = 32 :: stripAnsi post := by
  show stripAnsiGo (27 :: 40 :: x :: post).length (27 :: 40 :: x :: post)
      = _
  simp only [List.length_cons]
  rw [stripAnsiGo_desig40, if_pos hx,
    stripAnsiGo_fuel (post.length + 2) post (by omega)]
  rfl

theorem stripAnsi_desig41 (x : Nat) (post : List Nat)
    (hx : isDesigByte x = true) :
    stripAnsi (27 :: 41 :: x :: post) = 32 :: stripAnsi post := by
  show stripAnsiGo (27 :: 41 :: x :: post).length (27 :: 41 :: x :: post)
      = _
  simp only [List.length_cons]
  rw [stripAnsiGo_desig41, if_pos hx,
    stripAnsiGo_fuel (post.length + 2) post (by omega)]
  rfl

theorem stripAnsi_append_noEsc (pre l : List Nat)
    (hpre : ∀ b ∈ pre, b ≠ 27) :
    stripAnsi (pre ++ l) = pre ++ stripAnsi l := by
  induction pre with
  | nil => simp
  | cons b pre2 ih =>
    have hb : ¬ b = 27 := hpre b (List.mem_cons_self b pre2)
    have hrest : ∀ y ∈ pre2, y ≠ 27 := fun y hy =>
      hpre y (List.mem_cons_of_mem b hy)
    show stripAnsi (b :: (pre2 ++ l)) = b :: (pre2 ++ stripAnsi l)
    rw [stripAnsi_cons_nonEsc b _ hb, ih hrest]

/-- Counterexample to C8 as stated: the stripper's CSI branch requires
parameter bytes 0x30–0x3F before intermediate bytes 0x20–0x2F (not an
arbitrary mix of bytes 0x20–0x3F), its OSC branch cannot cross a
newline, and its designator branch only strips `ESC ( x` / `ESC ) x`
for `x` in 0–9, A, B.  The inputs `ESC [ SP 0 m`, `ESC ( C` and
`ESC ] a LF BEL` are left untouched although the claim, read literally,
says each is removed and replaced by one space. -/
theorem stripAnsi_claim_counterexample :
    stripAnsi [27, 91, 32, 48, 109] = [27, 91, 32, 48, 109]
    ∧ stripAnsi [27, 40, 67] = [27, 40, 67]
    ∧ stripAnsi [27, 93, 97, 10, 7] = [27, 93, 97, 10, 7]
    ∧ ¬ (∀ (ps : List Nat) (f : Nat) (post : List Nat),
          (∀ b ∈ ps, 0x20 ≤ b ∧ b ≤ 0x3F) → 0x40 ≤ f → f ≤ 0x7E →
          stripAnsi (27 :: 91 :: (ps ++ f :: post)) = 32 :: stripAnsi post)
    ∧ ¬ (∀ (x : Nat) (post : List Nat),
          stripAnsi (27 :: 40 :: x :: post) = 32 :: stripAnsi post)
    ∧ ¬ (∀ (body post : List Nat), (∀ b ∈ body, b ≠ 7 ∧ b ≠ 27) →
          stripAnsi (27 :: 93 :: (body ++ 7 :: post))
            = 32 :: stripAnsi post) := by
  refine ⟨by decide, by decide, by decide, ?_, ?_, ?_⟩
  · intro h
    have h2 := h [32, 48] 109 [] (by decide) (by decide) (by decide)
    exact absurd h2 (by decide)
  · intro h
    have h2 := h 67 []
    exact absurd h2 (by decide)
  · intro h
    have h2 := h [97, 10] [] (by decide)
    exact absurd h2 (by decide)

/-- C8 (amended): the stripper replaces with a single space exactly the
shapes `ansiRe` matches: CSI sequences `ESC [` + parameter bytes
0x30–0x3F + intermediate bytes 0x20–0x2F + one final byte 0x40–0x7E
(including tilde-terminated ones — `~` is the final byte 0x7E); OSC
sequences `ESC ]` + non-newline, non-BEL bytes up to the first BEL or
`ESC \`; and character-set designators `ESC ( x` / `ESC ) x` with `x`
in 0–9, A, B. -/
theorem stripAnsi_removes_sequences (pre ps is body post : List Nat)
    (f x : Nat) (hpre : ∀ b ∈ pre, b ≠ 27)
    (hps : ∀ b ∈ ps, isCsiParam b = true)
    (his : ∀ b ∈ is, isCsiInter b = true)
    (hf : isCsiFinal f = true)
    (hbody : ∀ b ∈ body, b ≠ 7 ∧ b ≠ 10 ∧ b ≠ 27)
    (hx : isDesigByte x = true) :
    stripAnsi (pre ++ 27 :: 91 :: (ps ++ is ++ f :: post))
      = pre ++ 32 :: stripAnsi post
    ∧ stripAnsi (pre ++ 27 :: 93 :: (body ++ 7 :: post))
      = pre ++ 32 :: stripAnsi post
    ∧ stripAnsi (pre ++ 27 :: 93 :: (body ++ 27 :: 92 :: post))
      = pre ++ 32 :: stripAnsi post
    ∧ stripAnsi (pre ++ 27 :: 40 :: x :: post)
      = pre ++ 32 :: stripAnsi post
    ∧ stripAnsi (pre ++ 27 :: 41 :: x :: post)
      = pre ++ 32 :: stripAnsi post := by
  refine ⟨?_, ?_, ?_, ?_, ?_⟩
  · rw [stripAnsi_append_noEsc pre _ hpre,
      stripAnsi_csi _ post (matchCsi_spec ps is post f hps his hf)]
  · rw [stripAnsi_append_noEsc pre _ hpre,
      stripAnsi_osc _ post (matchOsc_bel body post hbody)]
  · rw [stripAnsi_append_noEsc pre _ hpre,
      stripAnsi_osc _ post (matchOsc_st body post hbody)]
  · rw [stripAnsi_append_noEsc pre _ hpre, stripAnsi_desig40 x post hx]
  · rw [stripAnsi_append_noEsc pre _ hpre, stripAnsi_desig41 x post hx]

/-- Witness for `stripAnsi_removes_sequences`: prefix `"v"`, the
tilde-terminated CSI `ESC [ 1 5 SP ~`, OSC body `"a"`, designator
`ESC ( B`, suffix `"x"`. -/
theorem stripAnsi_removes_sequences_witness :
    stripAnsi ([118] ++ 27 :: 91 :: ([49, 53] ++ [32] ++ 126 :: [120]))
      = [118] ++ 32 :: stripAnsi [120]
    ∧ stripAnsi ([118] ++ 27 :: 93 :: ([97] ++ 7 :: [120]))
      = [118] ++ 32 :: stripAnsi [120]
    ∧ stripAnsi ([118] ++ 27 :: 93 :: ([97] ++ 27 :: 92 :: [120]))
      = [118] ++ 32 :: stripAnsi [120]
    ∧ stripAnsi ([118] ++ 27 :: 40 :: 66 :: [120])
      = [118] ++ 32 :: stripAnsi [120]
    ∧ stripAnsi ([118] ++ 27 :: 41 :: 66 :: [120])
      = [118] ++ 32 :: stripAnsi [120] :=
  stripAnsi_removes_sequences [118] [49, 53] [32] [97] [120] 126 66
    (by decide) (by decide) (by decide) (by decide) (by decide)
    (by decide)


/-! ## C4: the Subscribe snapshot/broadcast race -/

/-- C4 failing input: the readLoop handles chunk `"AAAA"` as two
critical sections — `scrollback.Write` under the ring mutex, then
`broadcast` under the subscriber mutex — and `Subscribe` (register +
snapshot, under the subscriber mutex) can interleave between them.
That schedule is a legal interleaving of the readLoop's program order
with the subscriber's call, and in it the subscriber gets a snapshot
that already contains the chunk and then receives the same chunk on
its channel: every byte of `"AAAA"` is observed twice, although only
four bytes were produced — contradicting the claim's no-duplication
guarantee (the snapshot is taken under the subscriber lock, but the
scrollback write is not). -/
theorem subscribe_duplication_race :
    Interleaves (readLoopEvents [[65, 65, 65, 65]]) [Ev.subscribe]
      [Ev.write [65, 65, 65, 65], Ev.subscribe, Ev.bcast [65, 65, 65, 65]]
    ∧ (runEvents [Ev.write [65, 65, 65, 65], Ev.subscribe,
        Ev.bcast [65, 65, 65, 65]]).snapshot = some [65, 65, 65, 65]
    ∧ (runEvents [Ev.write [65, 65, 65, 65], Ev.subscribe,
        Ev.bcast [65, 65, 65, 65]]).received = [[65, 65, 65, 65]]
    ∧ observed (runEvents [Ev.write [65, 65, 65, 65], Ev.subscribe,
        Ev.bcast [65, 65, 65, 65]])
      = [65, 65, 65, 65] ++ [65, 65, 65, 65]
    ∧ (runEvents [Ev.write [65, 65, 65, 65], Ev.subscribe,
        Ev.bcast [65, 65, 65, 65]]).scrollback = [65, 65, 65, 65] := by
  refine ⟨?_, by decide, by decide, by decide, by decide⟩
  show Interleaves [Ev.write [65, 65, 65, 65], Ev.bcast [65, 65, 65, 65]]
    [Ev.subscribe]
    [Ev.write [65, 65, 65, 65], Ev.subscribe, Ev.bcast [65, 65, 65, 65]]
  exact Interleaves.left _ _ _ _
    (Interleaves.right _ _ _ _
      (Interleaves.left _ _ _ _ Interleaves.nil))

end Kojo
